import Mathlib

/-!
Verification development for the `jupyterhubutils` repository.

This file gives a shallow embedding, in Lean 4, of the algorithmic core of the
repository: the registry scanner/classifier (`scanrepo/scanrepo.py`), the
prepuller (`scanrepo/prepuller.py`) and the reaper (`scanrepo/reaper.py`), and
proves or refutes the frozen claims C1..C10 about them.

Modelling conventions:
  * Python strings are Lean `String`s; `str.startswith` is modelled on the
    character sequence (`List Char` of the string).
  * Timestamps are abstracted to `Nat` values: `datetime.strptime` on the
    ISO-8601 `last_updated` strings is an order-embedding, so every claim about
    ordering by last-updated time is stated over the abstracted values.
  * Python exceptions are modelled with `Except`: a function that can raise
    returns `Except PyExc _`, and each `.error` constructor is tied to a raise
    site of the source.
  * Mutable attributes are modelled by explicit state passing; a method that
    both mutates and can raise returns the (error?, state) pair, with the state
    reflecting exactly the assignments executed before the raise.
-/

/-- Decidable equality for `Except`, so that concrete runs of the modelled
fallible functions can be settled by `decide`. -/
instance {ε α : Type} [DecidableEq ε] [DecidableEq α] :
    DecidableEq (Except ε α) := fun x y =>
  match x, y with
  | Except.error u, Except.error v =>
    if h : u = v then Decidable.isTrue (by rw [h])
    else Decidable.isFalse (fun hc => by cases hc; exact h rfl)
  | Except.ok u, Except.ok v =>
    if h : u = v then Decidable.isTrue (by rw [h])
    else Decidable.isFalse (fun hc => by cases hc; exact h rfl)
  | Except.error _, Except.ok _ => Decidable.isFalse (fun hc => Except.noConfusion hc)
  | Except.ok _, Except.error _ => Decidable.isFalse (fun hc => Except.noConfusion hc)

/-- Python `s.startswith(p)`, on the character sequences of the strings. -/
def pyStartsWith (s p : String) : Bool :=
  p.data.isPrefixOf s.data

/-- Python `<` on strings: lexicographic comparison of the code-point
sequences. -/
def charListLT : List Char → List Char → Bool
  | [], [] => false
  | [], _ :: _ => true
  | _ :: _, [] => false
  | a :: as, b :: bs =>
    if a.toNat < b.toNat then true
    else if b.toNat < a.toNat then false
    else charListLT as bs

/-- Python `<=` on strings (total order: `a <= b` iff not `b < a`). -/
def pyStrLE (a b : String) : Bool :=
  !(charListLT b.data a.data)

/-- Keys of a Python dict built by inserting keys in list order: first
occurrence of each key keeps its position, later insertions only overwrite
the value.  Used to model `reapable = {}` / `reapable[r] = ...` loops. -/
def pyDictKeys : List String → List String
  | [] => []
  | k :: rest => if k ∈ rest then
      -- a later occurrence overwrites the value but the FIRST position wins
      -- in CPython; positions are irrelevant to the claims, which are about
      -- the key set, so we keep the later occurrence to stay structural.
      pyDictKeys rest
    else k :: pyDictKeys rest

/-- Python `l[:-k]` for a non-negative `k` (as in `tags[:-(keep_n)]`):
for `k = 0` this is `l[:0] = []`, otherwise all but the last `k` elements. -/
def pyNegSlice (l : List α) (k : Nat) : List α :=
  if k = 0 then [] else l.take (l.length - k)

/-- Exceptions raised by the modelled Python code, one constructor per raise
site kind.  `transport` and `decode` are the two `ValueError`s raised in
`ScanRepo.scan` (retrieval failure and JSON-decoding failure respectively). -/
inductive PyExc where
  | transport
  | decode
  | typeError
  | keyError
  | indexError
  | unboundLocal
  | runtimeError
  deriving DecidableEq, Repr

/-- Python `s.split(sep)` for a one-character separator, on the character
sequence of the string. -/
def pySplitChar (sep : Char) : List Char → List (List Char)
  | [] => [[]]
  | c :: rest =>
    match pySplitChar sep rest with
    | [] => [[]]
    | h :: t => if c = sep then [] :: h :: t else (c :: h) :: t

/-! ## Scanner / classifier (`scanrepo/scanrepo.py`) -/

/-- Reduced tag record, as built in `ScanRepo._reduce_results`:
`{"name": ..., "id": ..., "size": ..., "updated": ...}` (the `updated`
timestamp abstracted to `Nat`). -/
structure Red where
  name : String
  rid : Nat
  size : Nat
  updated : Nat
  deriving DecidableEq, Repr

/-- Raw registry tag record (one element of a page's `results[]`). -/
structure RawTag where
  name : String
  rid : Nat
  full_size : Nat
  last_updated : Nat
  deriving DecidableEq, Repr

/-- The `sort_field` configuration of `ScanRepo`; the reduced records have
exactly the fields `name`, `id`, `size`, `updated`. -/
inductive SortField where
  | name
  | rid
  | size
  | updated
  deriving DecidableEq, Repr

/-- Configuration of a `ScanRepo` instance (the fields the modelled methods
read). -/
structure ScanCfg where
  owner : String
  rname : String
  dailies : Nat := 3
  weeklies : Nat := 2
  releases : Nat := 1
  sort_field : SortField := SortField.name
  deriving Repr

/-- `ScanRepo._sort_images_by_name`: a tag is old-style when its name has no
underscore or starts with `latest_`. -/
def isOldStyle (name : String) : Bool :=
  !(name.data.contains '_') || pyStartsWith name "latest_"

/-- `ScanRepo._sort_images_by_name`.  The source splits the candidates into
old-style and new-style, string-sorts the old-style list in place, and then
runs `semver.format_version(components[1:])` on each new-style name.
`semver.format_version` takes `(major, minor, patch, ...)` as separate
arguments, so passing the single list argument raises `TypeError` as soon as
the new-style list is non-empty.  (Were that call ever to succeed, the merge
step `newstyle["semver"] == skey` would also raise `TypeError`: it indexes the
list `newstyle` with a string.)  When the new-style list is empty the function
falls through to `return sorted_newstyle.extend(oldstyle)`, and `list.extend`
returns the Python value `None`, modelled as `Option.none`. -/
def sortImagesByName (clist : List Red) : Except PyExc (Option (List Red)) :=
  let newstyle := clist.filter (fun c => !(isOldStyle c.name))
  if newstyle.isEmpty then Except.ok Option.none
  else Except.error PyExc.typeError

/-- `ScanRepo._sort_releases_by_name`, decoration step: a 4-character name is
decorated with the suffix `zzz` and recorded in the dict `nm`. -/
def decorateRelease (c : Red) : Red :=
  if c.name.length = 4 then { c with name := c.name ++ "zzz" } else c

/-- `ScanRepo._sort_releases_by_name`, undecoration loop: every candidate's
(possibly decorated) name is looked up in `nm`; a name that is not a key of
`nm` -- i.e. every candidate that was NOT 4 characters long -- raises
`KeyError`. -/
def undecorateReleases (nm : List (String × String)) :
    List Red → Except PyExc (List Red)
  | [] => Except.ok []
  | c :: rest =>
    match nm.lookup c.name with
    | Option.none => Except.error PyExc.keyError
    | Option.some orig =>
      match undecorateReleases nm rest with
      | Except.error e => Except.error e
      | Except.ok tl => Except.ok ({ c with name := orig } :: tl)

/-- `ScanRepo._sort_releases_by_name`: decorate bare 4-character release names
with `zzz`, sort all names descending (plain string order), then undecorate
through the dict `nm`. -/
def sortReleasesByName (cands : List Red) : Except PyExc (List Red) :=
  let nm := cands.filterMap
    (fun c => if c.name.length = 4 then
        Option.some (c.name ++ "zzz", c.name)
      else Option.none)
  let decorated := cands.map decorateRelease
  let sorted := decorated.insertionSort (fun a b => pyStrLE b.name a.name = true)
  undecorateReleases nm sorted

/-- The six candidate buckets built by `ScanRepo._reduce_results`.  The
`other` bucket receives the bare NAME (a string, not the record): the source
appends `res`, the dict key, rather than `reduced_results[res]`. -/
structure Buckets where
  rel : List Red := []
  wk : List Red := []
  dy : List Red := []
  ex : List Red := []
  lt : List Red := []
  ot : List String := []
  deriving DecidableEq, Repr

/-- The `if/elif` prefix dispatch of `_reduce_results`, for one record. -/
def routeTag (c : Red) (b : Buckets) : Buckets :=
  if pyStartsWith c.name "r" then { b with rel := c :: b.rel }
  else if pyStartsWith c.name "w" then { b with wk := c :: b.wk }
  else if pyStartsWith c.name "d" then { b with dy := c :: b.dy }
  else if pyStartsWith c.name "exp" then { b with ex := c :: b.ex }
  else if pyStartsWith c.name "latest" then { b with lt := c :: b.lt }
  else { b with ot := c.name :: b.ot }

/-- Bucketing loop of `_reduce_results`: the records are dispatched in
iteration order (each bucket keeps the input order of its members). -/
def bucketize : List Red → Buckets
  | [] => {}
  | c :: rest => routeTag c (bucketize rest)

/-- Membership in the release bucket, with the `elif` chain's accumulated
negations made explicit (trivially none for the first branch). -/
def isRelTagB (c : Red) : Bool := pyStartsWith c.name "r"

/-- Membership in the weekly bucket of `_reduce_results`. -/
def isWkTagB (c : Red) : Bool :=
  !pyStartsWith c.name "r" && pyStartsWith c.name "w"

/-- Membership in the daily bucket of `_reduce_results`. -/
def isDyTagB (c : Red) : Bool :=
  !pyStartsWith c.name "r" && !pyStartsWith c.name "w" &&
    pyStartsWith c.name "d"

/-- Membership in the experimental bucket of `_reduce_results`. -/
def isExTagB (c : Red) : Bool :=
  !pyStartsWith c.name "r" && !pyStartsWith c.name "w" &&
    !pyStartsWith c.name "d" && pyStartsWith c.name "exp"

/-- Membership in the latest bucket of `_reduce_results`. -/
def isLtTagB (c : Red) : Bool :=
  !pyStartsWith c.name "r" && !pyStartsWith c.name "w" &&
    !pyStartsWith c.name "d" && !pyStartsWith c.name "exp" &&
    pyStartsWith c.name "latest"

/-- Membership in the `other` bucket (`else` branch) of `_reduce_results`. -/
def isOtTagB (c : Red) : Bool :=
  !pyStartsWith c.name "r" && !pyStartsWith c.name "w" &&
    !pyStartsWith c.name "d" && !pyStartsWith c.name "exp" &&
    !pyStartsWith c.name "latest"

/-- `reduced_results[vname] = {...}`: dict insertion keyed by tag name.  The
first occurrence of a name keeps its position, a later record with the same
name overwrites the stored value. -/
def pyInsertRed (l : List Red) (c : Red) : List Red :=
  match l with
  | [] => [c]
  | x :: rest => if x.name = c.name then c :: rest else x :: pyInsertRed rest c

/-- The `reduced_results` dict of `_reduce_results`, in iteration order. -/
def reduceDict (raws : List RawTag) : List Red :=
  raws.foldl
    (fun acc res =>
      pyInsertRed acc
        { name := res.name, rid := res.rid, size := res.full_size,
          updated := res.last_updated })
    []

/-- Reading `x[sort_field]` of a reduced record, for a non-`name` sort
field. -/
def fieldVal (sf : SortField) (c : Red) : Nat :=
  match sf with
  | SortField.name => 0
  | SortField.rid => c.rid
  | SortField.size => c.size
  | SortField.updated => c.updated

/-- `clist.sort(key=lambda x: x[sort_field], reverse=True)`. -/
def sortFieldDesc (sf : SortField) (l : List Red) : List Red :=
  l.insertionSort (fun a b => fieldVal sf b ≤ fieldVal sf a)

/-- The per-bucket sort step of `_reduce_results`.  For a non-`name` sort
field every bucket in `imgorder` is sorted in place, descending by that field.
For the `name` sort field the source calls `_sort_images_by_name` on each
bucket (order of `imgorder`: latest, experimental, daily, weekly, release) but
REBINDS the loop variable with the result, so the buckets are left exactly as
they were; any `TypeError` raised by `_sort_images_by_name` still
propagates. -/
def sortStep (sf : SortField) (b : Buckets) : Except PyExc Buckets :=
  if sf = SortField.name then
    match sortImagesByName b.lt with
    | Except.error e => Except.error e
    | Except.ok _ =>
      match sortImagesByName b.ex with
      | Except.error e => Except.error e
      | Except.ok _ =>
        match sortImagesByName b.dy with
        | Except.error e => Except.error e
        | Except.ok _ =>
          match sortImagesByName b.wk with
          | Except.error e => Except.error e
          | Except.ok _ =>
            match sortImagesByName b.rel with
            | Except.error e => Except.error e
            | Except.ok _ => Except.ok b
  else
    Except.ok
      { b with
        lt := sortFieldDesc sf b.lt
        ex := sortFieldDesc sf b.ex
        dy := sortFieldDesc sf b.dy
        wk := sortFieldDesc sf b.wk
        rel := sortFieldDesc sf b.rel }

/-- The kept category map `self.data` as assembled at the end of
`_reduce_results` (`r[ikey] = displayorder[idx][:ict]`). -/
structure CatMap where
  daily : List Red := []
  weekly : List Red := []
  release : List Red := []
  deriving DecidableEq, Repr

/-- The mutable scan state of a `ScanRepo` instance: `self.data` and
`self._all_tags`. -/
structure ScanState where
  data : CatMap := {}
  all_tags : List String := []
  deriving DecidableEq, Repr

/-- `ScanRepo.get_data`. -/
def get_data (st : ScanState) : CatMap := st.data

/-- `ScanRepo.get_all_tags`. -/
def get_all_tags (st : ScanState) : List String := st.all_tags

/-- `ScanRepo._reduce_results`, with explicit state passing.  The two
assignments `self.data = r` and `self._all_tags = all_tags` are the last
statements of the method, so on any raise the state is returned unchanged.
Note that `all_tags` is extended over `imgorder = [latest, experimental,
daily, weekly, release]`: `imgorder.extend(o_candidates)` ran while
`o_candidates` was still empty, so the `other` bucket contributes nothing,
and the full (untruncated) bucket lists are used. -/
def reduceResults (cfg : ScanCfg) (st : ScanState) (raws : List RawTag) :
    Option PyExc × ScanState :=
  let reduced := reduceDict raws
  let b := bucketize reduced
  match sortStep cfg.sort_field b with
  | Except.error e => (Option.some e, st)
  | Except.ok b' =>
    let r : CatMap :=
      { daily := b'.dy.take cfg.dailies
        weekly := b'.wk.take cfg.weeklies
        release := b'.rel.take cfg.releases }
    let all_tags :=
      b'.lt.map Red.name ++ b'.ex.map Red.name ++ b'.dy.map Red.name ++
        b'.wk.map Red.name ++ b'.rel.map Red.name
    (Option.none, { data := r, all_tags := all_tags })

/-- One page answer of the registry, as observed through `_get_url` +
`json.loads`: the request can fail at transport level, the body can fail to
decode as JSON, or it is a decoded page with a `results` list and the presence
bit of a usable `next` cursor. -/
inductive PageResp where
  | transportFail
  | badJson
  | page (results : List RawTag) (hasNext : Bool)
  deriving Repr

/-- The paging loop of `ScanRepo.scan`: page `n` receives the `n`-th oracle
answer; a transport failure raises the first `ValueError` of `scan`
(`"Failure retrieving ..."`, modelled `PyExc.transport`), an undecodable body
raises the second (`"Could not decode ... as JSON"`, modelled `PyExc.decode`);
otherwise `results` are accumulated and the loop continues while `next` is
present.  Running out of oracle answers models an unreachable registry. -/
def fetchPages : List PageResp → List RawTag → Except PyExc (List RawTag)
  | [], _ => Except.error PyExc.transport
  | PageResp.transportFail :: _, _ => Except.error PyExc.transport
  | PageResp.badJson :: _, _ => Except.error PyExc.decode
  | PageResp.page res hasNext :: rest, acc =>
    if hasNext then fetchPages rest (acc ++ res) else Except.ok (acc ++ res)

/-- `ScanRepo.scan` with explicit state: fetch all pages, then reduce.  The
state is only written inside `_reduce_results`, after the whole fetch loop has
succeeded. -/
def scan (cfg : ScanCfg) (st : ScanState) (resps : List PageResp) :
    Option PyExc × ScanState :=
  match fetchPages resps [] with
  | Except.error e => (Option.some e, st)
  | Except.ok results => reduceResults cfg st results


/-! ## `ScanRepo.extract_image_info` -/

/-- One iteration of the description loop of `extract_image_info`, up to the
point where `ld` would be appended: `Except.ok (Option.some d)` when the
iteration assigns `ld := d`, `Except.ok Option.none` when no branch assigns
`ld` (new-style tag whose first component is not `r`/`w`/`d`, or legacy tag
whose first character is not `r`/`w`/`d`), and an `IndexError` when a
new-style tag has too few components for its branch. -/
def describeTag (tag : String) : Except PyExc (Option String) :=
  if tag.data.contains '_' then
    match (pySplitChar '_' tag.data).map (fun l => String.mk l) with
    | [] => Except.ok Option.none
    | btype :: comps =>
      if btype = "r" then
        match comps with
        | rmaj :: rmin :: tl =>
          let ld := "Release " ++ rmaj ++ "." ++ rmin
          let ld := match tl with
            | [] => ld
            | rpatch :: tl2 =>
              -- `rpatch` and `rrest` are appended only when truthy (non-empty)
              let ld := if rpatch = "" then ld else ld ++ "." ++ rpatch
              if tl2 = [] then ld
              else
                let rrest := String.intercalate "_" tl2
                if rrest = "" then ld else ld ++ "." ++ rrest
          Except.ok (Option.some ld)
        | _ => Except.error PyExc.indexError
      else if btype = "w" then
        match comps with
        | year :: week :: _ =>
          Except.ok (Option.some ("Weekly " ++ year ++ "_" ++ week))
        | _ => Except.error PyExc.indexError
      else if btype = "d" then
        match comps with
        | year :: month :: day :: _ =>
          Except.ok
            (Option.some ("Daily " ++ year ++ "_" ++ month ++ "_" ++ day))
        | _ => Except.error PyExc.indexError
      else Except.ok Option.none
  else
    match tag.data with
    | [] => Except.error PyExc.indexError
    | c :: cs =>
      if c = 'r' then
        let rmaj := String.mk (cs.take 2)
        let rmin := String.mk (cs.drop 2)
        Except.ok (Option.some ("Release " ++ rmaj ++ "." ++ rmin))
      else if c = 'w' then
        let year := String.mk (cs.take 4)
        let week := String.mk (cs.drop 4)
        Except.ok (Option.some ("Weekly " ++ year ++ "_" ++ week))
      else if c = 'd' then
        let year := String.mk (cs.take 4)
        let month := String.mk ((cs.drop 4).take 2)
        let day := String.mk (cs.drop 6)
        Except.ok
          (Option.some ("Daily " ++ year ++ "_" ++ month ++ "_" ++ day))
      else Except.ok Option.none

/-- The description loop of `extract_image_info`, with the local variable
`ld` threaded explicitly: each iteration appends the CURRENT value of `ld`,
so an iteration that assigns nothing appends the previous iteration's
description, and if `ld` was never assigned Python raises
`UnboundLocalError`. -/
def buildDescs (ld : Option String) : List Red → Except PyExc (List String)
  | [] => Except.ok []
  | c :: rest =>
    match describeTag c.name with
    | Except.error e => Except.error e
    | Except.ok (Option.some d) =>
      match buildDescs (Option.some d) rest with
      | Except.error e => Except.error e
      | Except.ok tl => Except.ok (d :: tl)
    | Except.ok Option.none =>
      match ld with
      | Option.none => Except.error PyExc.unboundLocal
      | Option.some prev =>
        match buildDescs (Option.some prev) rest with
        | Except.error e => Except.error e
        | Except.ok tl => Except.ok (prev :: tl)

/-- `ScanRepo.extract_image_info`: the kept records of the `daily`, `weekly`
and `release` categories (in that order) are turned into fully-qualified
image names and human-readable descriptions. -/
def extractImageInfo (cfg : ScanCfg) (m : CatMap) :
    Except PyExc (List String × List String) :=
  let cs := m.daily ++ m.weekly ++ m.release
  match buildDescs Option.none cs with
  | Except.error e => Except.error e
  | Except.ok ldescs =>
    let ls := cs.map (fun x => cfg.owner ++ "/" ++ cfg.rname ++ ":" ++ x.name)
    Except.ok (ls, ldescs)

/-! ## Prepuller (`scanrepo/prepuller.py`) -/

/-- `Prepuller._podname_from_image`: join the last two `/`-separated
components with `-`, then replace `:` and `_` by `-`. -/
def podnameFromImage (img : String) : String :=
  let parts := pySplitChar '/' img.data
  let lastTwo := parts.drop (parts.length - 2)
  let joined := String.intercalate "-" (lastTwo.map (fun l => String.mk l))
  String.mk
    (joined.data.map (fun c => if c = ':' then '-' else if c = '_' then '-' else c))

/-- A pod spec as built by `Prepuller._build_pod_spec`: the fields the
modelled methods read are the container image and the node name. -/
structure PodSpec where
  image : String
  node : String
  deriving DecidableEq, Repr

/-- `node_name.split('-')[-1]`: the node name's last dash-separated
component, as used by `_derive_pod_name`. -/
def nodeSuffix (node : String) : List Char :=
  (pySplitChar '-' node.data).getLastD []

/-- `Prepuller._derive_pod_name`: `"pp-" + podname_from_image(image) + "-" +
node_name.split('-')[-1]`. -/
def derivePodName (spec : PodSpec) : String :=
  "pp-" ++ podnameFromImage spec.image ++ "-" ++ String.mk (nodeSuffix spec.node)

/-- `Prepuller.build_pod_specs`: one spec per (node, image) pair, grouped by
node.  The source stores them in a dict keyed by node name, so a duplicated
node name would collapse; node names from `build_nodelist` are unique. -/
def buildPodSpecs (nodes images : List String) :
    List (String × List PodSpec) :=
  nodes.map (fun node => (node, images.map (fun img => PodSpec.mk img node)))

/-- All derived pod names of the node × image matrix, in build order. -/
def allPodNames (nodes images : List String) : List String :=
  ((buildPodSpecs nodes images).map
    (fun p => p.snd.map derivePodName)).flatten

/-- A pod phase is terminal when it is `Failed` or `Succeeded`. -/
def terminalPhase (p : String) : Bool :=
  p = "Failed" || p = "Succeeded"

/-- The polling loop of `Prepuller.wait_for_pod`, with the poll number
`tries` counting up from 1: read the phase; return (after deleting the pod)
when it is terminal; raise `RuntimeError` when `tries >= max_tries`;
otherwise sleep `delay` seconds and poll again.  The extra fuel argument is
`max_tries + 1 - tries`, so the `0` case is never reached from
`waitForPod`. -/
def waitLoop (phases : Nat → String) (maxTries : Nat) :
    Nat → Nat → Except PyExc Unit
  | _, 0 => Except.error PyExc.runtimeError
  | tries, fuel + 1 =>
    if terminalPhase (phases tries) then Except.ok ()
    else if maxTries ≤ tries then Except.error PyExc.runtimeError
    else waitLoop phases maxTries (tries + 1) fuel

/-- `Prepuller.wait_for_pod` for a pod whose phase at poll `t` is
`phases t`, with the source's defaults `delay=1`, `max_tries=3600`. -/
def waitForPod (phases : Nat → String) (delay : Nat := 1)
    (maxTries : Nat := 3600) : Except PyExc Unit :=
  waitLoop phases maxTries 1 maxTries

/-- `Prepuller.run_pods_for_node`, for one worker thread: pods are started
and awaited strictly one at a time.  Returns the list of pods the worker
actually created (in order) and the error, if any, that terminated the
thread: `wait_for_pod`'s `RuntimeError` is NOT caught by the loop, so it
aborts the worker and the node's remaining images are never started. -/
def runPodsForNode (phasesOf : String → Nat → String) (maxTries : Nat) :
    List PodSpec → List String × Option PyExc
  | [] => ([], Option.none)
  | spec :: rest =>
    let podname := derivePodName spec
    match waitForPod (phasesOf podname) 1 maxTries with
    | Except.error e => ([podname], Option.some e)
    | Except.ok _ =>
      let r := runPodsForNode phasesOf maxTries rest
      (podname :: r.fst, r.snd)

/-- `Prepuller.run_pods`: one worker thread per node, all joined at the end.
The workers share no mutable state (each owns its spec list), so each node's
outcome is a function of that node's specs and pods alone. -/
def runPods (phasesOf : String → Nat → String) (maxTries : Nat)
    (specs : List (String × List PodSpec)) :
    List (String × (List String × Option PyExc)) :=
  specs.map (fun p => (p.fst, runPodsForNode phasesOf maxTries p.snd))

/-! ## Reaper (`scanrepo/reaper.py`) -/

/-- The entry of `Reaper._results_map` for one tag, restricted to the fields
the reaper reads: the `last_updated` timestamp (abstracted to `Nat`, see the
header) and the content `hash`.  The map itself is modelled as a total
function `String → TagInfo` over the scanned tags. -/
structure TagInfo where
  last_updated : Nat
  hash : String
  deriving DecidableEq, Repr

/-- `Reaper._categorized_tags`.  In the source this dict is a CLASS attribute
of `Reaper`, created once at class definition time, shared by every instance
and never cleared; `_categorize_tags` mutates the three lists in place.  It
is modelled as explicitly threaded state, with the class-level initial value
`{}` (all lists empty). -/
structure CatTags where
  weekly : List String := []
  daily : List String := []
  experimental : List String := []
  deriving DecidableEq, Repr

/-- The `if/elif` dispatch of `Reaper._categorize_tags` for one tag:
`startswith('w')`, else `startswith('d')`, else `startswith('exp')`, else
nothing (in particular release tags, which start with `r`, are never
categorized). -/
def routeReapTag (s : CatTags) (t : String) : CatTags :=
  if pyStartsWith t "w" then { s with weekly := s.weekly ++ [t] }
  else if pyStartsWith t "d" then { s with daily := s.daily ++ [t] }
  else if pyStartsWith t "exp" then
    { s with experimental := s.experimental ++ [t] }
  else s

/-- The append loop of `Reaper._categorize_tags`: every scanned tag is
appended to the matching (shared) category list. -/
def appendReapTags (s : CatTags) : List String → CatTags
  | [] => s
  | t :: rest => appendReapTags (routeReapTag s t) rest

/-- Membership in the reaper's weekly category. -/
def isWeeklyTagB (t : String) : Bool := pyStartsWith t "w"

/-- Membership in the reaper's daily category (`elif` after weekly). -/
def isDailyTagB (t : String) : Bool :=
  !pyStartsWith t "w" && pyStartsWith t "d"

/-- Membership in the reaper's experimental category (`elif` after daily). -/
def isExpTagB (t : String) : Bool :=
  !pyStartsWith t "w" && !pyStartsWith t "d" && pyStartsWith t "exp"

/-- Each element duplicated in place: the shape of a category list after the
same scan data has been appended and re-sorted a second time. -/
def dupEach : List α → List α
  | [] => []
  | a :: l => a :: a :: dupEach l

/-- Ascending sort by last-updated time, as performed at the end of
`Reaper._categorize_tags` (`sort(key=...strptime(...))`). -/
def sortAscByTime (time : String → Nat) (l : List String) : List String :=
  l.insertionSort (fun a b => time a ≤ time b)

/-- `Reaper._categorize_tags`: append the scanned tags to the shared
category lists, then sort each list ascending by the tag's `last_updated`
time from `_results_map`. -/
def categorizeTags (time : String → Nat) (s : CatTags)
    (tags : List String) : CatTags :=
  let s' := appendReapTags s tags
  { weekly := sortAscByTime time s'.weekly
    daily := sortAscByTime time s'.daily
    experimental := sortAscByTime time s'.experimental }

/-- `Reaper._select_victims`: categorize, then take every category's prefix
`[:-keep_n]` (all but the `keep_n` most recently updated tags, and nothing at
all when `keep_n = 0`), in the order experimental, daily, weekly, and record
each reapable tag's content hash in the dict `self.reapable`.  Returns the
new shared state, the raw `reaptags` list, and `reapable` as an association
list keyed by tag name. -/
def selectVictims (info : String → TagInfo) (s : CatTags)
    (tags : List String) (keepExperimentals keepDailies keepWeeklies : Nat) :
    CatTags × List String × List (String × String) :=
  let s' := categorizeTags (fun t => (info t).last_updated) s tags
  let reaptags :=
    pyNegSlice s'.experimental keepExperimentals ++
      pyNegSlice s'.daily keepDailies ++ pyNegSlice s'.weekly keepWeeklies
  let reapable := (pyDictKeys reaptags).map (fun t => (t, (info t).hash))
  (s', reaptags, reapable)

/-- The key set of `self.reapable` produced by one `_select_victims` call. -/
def reapableKeys (info : String → TagInfo) (s : CatTags)
    (tags : List String) (ke kd kw : Nat) : List String :=
  ((selectVictims info s tags ke kd kw).snd.snd).map Prod.fst

/-! ### `Reaper._delete_from_repo` and `_authenticate_to_repo` -/

/-- Per-tag behaviour of the registry in one reap cycle: the status of the
first `DELETE` of the tag's manifest, the `Www-Authenticate` header carried
by that response (read only when the status is 401), the `token` field of
the realm endpoint's JSON answer (`None` when absent), and the status of the
retried `DELETE`. -/
structure DelSim where
  firstStatus : Nat
  wwwAuth : String := ""
  tokenResp : Option String := Option.none
  retryStatus : Nat := 0
  deriving Repr

/-- The challenge-parsing loop of `_authenticate_to_repo`: each
comma-separated chunk is split on `=`; `il[1]` raises `IndexError` when a
chunk has no `=`; the value is stripped of double quotes. -/
def parseChallengePairs : List (List Char) →
    Except PyExc (List (String × String))
  | [] => Except.ok []
  | chunk :: rest =>
    match pySplitChar '=' chunk with
    | [] => Except.error PyExc.indexError
    | [_] => Except.error PyExc.indexError
    | k :: v :: _ =>
      match parseChallengePairs rest with
      | Except.error e => Except.error e
      | Except.ok tl =>
        Except.ok
          ((String.mk k, String.mk (v.filter (fun c => !(c = '"')))) :: tl)

/-- `Reaper._authenticate_to_repo`.  On a `Bearer` challenge the key/value
pairs are parsed; if the dict is empty or lacks `realm`, `service` or
`scope` the method returns Python `None` (modelled `Except.ok Option.none`).
Otherwise the realm endpoint is queried (its `token` answer is the
`tokenResp` oracle): with a token the method returns the singleton
`Authorization` header dict; without one, and for a non-`Bearer` challenge,
it falls through to `return {}` (modelled as `Option.some []`). -/
def authenticateToRepo (wwwAuth : String) (tokenResp : Option String) :
    Except PyExc (Option (List (String × String))) :=
  if wwwAuth.data.take 7 = "Bearer ".data then
    match parseChallengePairs (pySplitChar ',' (wwwAuth.data.drop 7)) with
    | Except.error e => Except.error e
    | Except.ok hd =>
      if hd = [] ∨ (hd.lookup "realm").isNone ∨ (hd.lookup "service").isNone
          ∨ (hd.lookup "scope").isNone then
        Except.ok Option.none
      else
        match tokenResp with
        | Option.some tok =>
          Except.ok (Option.some [("Authorization", "Bearer " ++ tok)])
        | Option.none => Except.ok (Option.some [])
  else Except.ok (Option.some [])

/-- Overwrite-or-append update of one key of an association list (Python
`dict.__setitem__`). -/
def setAssoc (l : List (String × String)) (k v : String) :
    List (String × String) :=
  match l with
  | [] => [(k, v)]
  | kv :: rest =>
    if kv.fst = k then (k, v) :: rest else kv :: setAssoc rest k v

/-- Python `dict.update` on association lists. -/
def updateAssoc (l adds : List (String × String)) :
    List (String × String) :=
  adds.foldl (fun acc kv => setAssoc acc kv.fst kv.snd) l

/-- `del self._results_map[t]`, on the association-list view of the map used
by the delete loop. -/
def eraseKeyTI (m : List (String × TagInfo)) (t : String) :
    List (String × TagInfo) :=
  match m with
  | [] => []
  | kv :: rest => if kv.fst = t then rest else kv :: eraseKeyTI rest t

/-- 2xx check of the delete loop: `(sc >= 200) and (sc < 300)`. -/
def isOkStatus (sc : Nat) : Bool :=
  decide (200 ≤ sc) && decide (sc < 300)

/-- Observable per-tag outcome of the delete loop: how many `DELETE`
requests were issued for the tag, the status of the last one, whether the
tag was removed from `self._results_map`, and the `Authorization` header in
force for the retried request (if a retry happened). -/
structure TagTrace where
  tag : String
  calls : Nat
  finalStatus : Nat
  removed : Bool
  retryAuth : Option String
  deriving DecidableEq, Repr

/-- The per-tag loop of `Reaper._delete_from_repo` for the generic registry
path: one `DELETE` of the manifest; on a 401, `_authenticate_to_repo` is
consulted and its result merged into the shared `headers` dict
(`headers.update(None)` raises `TypeError` when the method returned Python
`None`), then the `DELETE` is retried exactly once; on a final 2xx the tag
is deleted from `_results_map`, otherwise the failure is logged and the loop
simply continues with the next tag. -/
def deleteLoop (sim : String → DelSim) :
    List String → List (String × TagInfo) → List (String × String) →
    Except PyExc (List (String × TagInfo) × List TagTrace)
  | [], m, _ => Except.ok (m, [])
  | t :: rest, m, headers =>
    let d := sim t
    if d.firstStatus = 401 then
      match authenticateToRepo d.wwwAuth d.tokenResp with
      | Except.error e => Except.error e
      | Except.ok Option.none => Except.error PyExc.typeError
      | Except.ok (Option.some authHdr) =>
        let headers' := updateAssoc headers authHdr
        let sc := d.retryStatus
        let removed := isOkStatus sc
        let m' := if removed then eraseKeyTI m t else m
        let trace : TagTrace :=
          { tag := t, calls := 2, finalStatus := sc, removed := removed
            retryAuth := headers'.lookup "Authorization" }
        match deleteLoop sim rest m' headers' with
        | Except.error e => Except.error e
        | Except.ok (mf, tr) => Except.ok (mf, trace :: tr)
    else
      let sc := d.firstStatus
      let removed := isOkStatus sc
      let m' := if removed then eraseKeyTI m t else m
      let trace : TagTrace :=
        { tag := t, calls := 1, finalStatus := sc, removed := removed
          retryAuth := Option.none }
      match deleteLoop sim rest m' headers with
      | Except.error e => Except.error e
      | Except.ok (mf, tr) => Except.ok (mf, trace :: tr)

/-- `Reaper._delete_from_repo` for the generic (non-Docker-Hub) registry
path: nothing happens on an empty victim list or in dry-run mode; otherwise
the victims are deleted one by one starting from the manifest-v2 `Accept`
header. -/
def deleteFromRepo (sim : String → DelSim) (dryRun : Bool)
    (reapKeys : List String) (m : List (String × TagInfo)) :
    Except PyExc (List (String × TagInfo) × List TagTrace) :=
  if reapKeys = [] then Except.ok (m, [])
  else if dryRun then Except.ok (m, [])
  else
    deleteLoop sim reapKeys m
      [("Accept", "application/vnd.docker.distribution.manifest.v2+json")]

/-- The final per-tag status of one delete iteration: the retried status on a
401 first answer, the first status otherwise. -/
def finalStatusOf (sim : String → DelSim) (t : String) : Nat :=
  if (sim t).firstStatus = 401 then (sim t).retryStatus
  else (sim t).firstStatus

instance (time : String → Nat) :
    IsTotal String (fun a b => time a ≤ time b) :=
  ⟨fun a b => Nat.le_total (time a) (time b)⟩

instance (time : String → Nat) :
    IsTrans String (fun a b => time a ≤ time b) :=
  ⟨fun _ _ _ hab hbc => Nat.le_trans hab hbc⟩

/-! ## Helper lemmas -/

/-- A pod whose phase is never terminal exhausts any poll budget: the wait
loop always raises `RuntimeError`. -/
theorem waitLoop_stuck (phases : Nat → String)
    (h : ∀ t, terminalPhase (phases t) = false) :
    ∀ fuel tries maxTries,
      waitLoop phases maxTries tries fuel = Except.error PyExc.runtimeError := by
  intro fuel
  induction fuel with
  | zero => intro tries maxTries; rfl
  | succ n ih =>
    intro tries maxTries
    simp [waitLoop, h, ih]

/-- A node worker whose FIRST pod never reaches a terminal phase creates only
that pod and dies with the uncaught `RuntimeError`; the node's remaining spec
list is never touched. -/
theorem runPodsForNode_stuck_head (phasesOf : String → Nat → String)
    (maxTries : Nat) (spec : PodSpec) (rest : List PodSpec)
    (h : ∀ t, terminalPhase (phasesOf (derivePodName spec) t) = false) :
    runPodsForNode phasesOf maxTries (spec :: rest)
      = ([derivePodName spec], Option.some PyExc.runtimeError) := by
  simp only [runPodsForNode, waitForPod, waitLoop_stuck _ h]

/-! ## Claims -/

/-- C1 (code_bug).  The claim states that with `sort_field = 'name'`, ranking
within a category follows the two-tier comparator (new-format tags by parsed
version tuple descending, legacy tags as plain strings descending, new-format
always above legacy).  The code cannot implement this: `_sort_images_by_name`
raises `TypeError` (`semver.format_version` is called with a single list
argument) as soon as any new-format tag is present, and even on legacy-only
input `_reduce_results` discards its return value (`clist = self._sort_...`
rebinds the loop variable), so the category lists keep raw insertion order
instead of descending string order: dailies `d20200101, d20200102` stay in
that (ascending) order. -/
theorem c1_sort_images_by_name_code_bug :
    sortImagesByName [{ name := "w_2021_40", rid := 1, size := 0, updated := 0 }]
      = Except.error PyExc.typeError ∧
    ((reduceResults { owner := "o", rname := "n" } {}
        [{ name := "d20200101", rid := 1, full_size := 0, last_updated := 5 },
         { name := "d20200102", rid := 2, full_size := 0, last_updated := 6 }]
      ).snd.data.daily.map Red.name = ["d20200101", "d20200102"]) ∧
    ["d20200101", "d20200102"] ≠ ["d20200102", "d20200101"] := by
  refine ⟨rfl, rfl, by decide⟩

/-- C8 (code_bug).  The claim's scenario -- a release list holding a bare
4-character tag (`r130`) together with a same-prefix release-candidate tag
(`r130rc2`) -- can never produce a ranking: the undecorate loop of
`_sort_releases_by_name` looks EVERY candidate's name up in the dict `nm`,
which only holds entries for the decorated 4-character tags, so the
release-candidate name raises `KeyError`.  (The method is moreover never
called anywhere in the repository.) -/
theorem c8_sort_releases_by_name_code_bug :
    sortReleasesByName
        [{ name := "r130", rid := 1, size := 0, updated := 0 },
         { name := "r130rc2", rid := 2, size := 0, updated := 0 }]
      = Except.error PyExc.keyError := by
  rfl

/-- C9 (code_bug).  The claim states that a kept tag matching neither the new
underscore shape nor a recognized legacy shape produces no description and
does not raise.  In the code the loop variable `ld` is simply not assigned in
that case and the unconditional `ldescs.append(ld)` raises
`UnboundLocalError` (first such tag) or silently reuses the previous tag's
description: the daily-bucket tag `delta_x` (underscore format, first
component `delta`) crashes `extract_image_info`.  The recognized shapes do
produce the claimed descriptions. -/
theorem c9_extract_image_info_code_bug :
    extractImageInfo { owner := "o", rname := "n" }
        { daily := [{ name := "delta_x", rid := 1, size := 0, updated := 0 }] }
      = Except.error PyExc.unboundLocal ∧
    extractImageInfo { owner := "o", rname := "n" }
        { daily := [{ name := "d_2023_05_01", rid := 1, size := 0, updated := 0 }],
          weekly := [{ name := "w_2023_05", rid := 2, size := 0, updated := 0 }],
          release := [{ name := "r_20_1", rid := 3, size := 0, updated := 0 }] }
      = Except.ok (["o/n:d_2023_05_01", "o/n:w_2023_05", "o/n:r_20_1"],
          ["Daily 2023_05_01", "Weekly 2023_05", "Release 20.1"]) := by
  exact ⟨rfl, rfl⟩

/-- C2, counterexample.  The claim assigns "registry returns a non-JSON body"
to `TransportError`; in the code a body that fails `json.loads` -- whether
malformed JSON or plain HTML -- always raises the second `ValueError` of
`scan` (`"Could not decode ... as JSON"`, the decode-flavoured error), not
the transport-flavoured one raised on retrieval failure. -/
theorem c2_counterexample_nonjson_body_is_decode_error :
    scan { owner := "o", rname := "n" } {} [PageResp.badJson]
      = (Option.some PyExc.decode, ({} : ScanState)) ∧
    PyExc.decode ≠ PyExc.transport := by
  exact ⟨rfl, by decide⟩

/-- C3, counterexample.  A successful scan whose only tag is the
other-category tag `custom` yields `get_all_tags = []`: the `other` bucket is
absent from `imgorder` (`imgorder.extend(o_candidates)` ran while the list
was empty), so other-category names never appear in `_all_tags`, although the
claim's display order ends with `other` and counts it among the kept
entries. -/
theorem c3_counterexample_other_tags_omitted :
    scan { owner := "o", rname := "n" } {}
        [PageResp.page [{ name := "custom", rid := 1, full_size := 0, last_updated := 3 }] false]
      = (Option.none, ({} : ScanState)) ∧
    (bucketize (reduceDict
        [{ name := "custom", rid := 1, full_size := 0, last_updated := 3 }])).ot
      = ["custom"] := by
  exact ⟨rfl, rfl⟩

/-- C4, counterexample.  A node with two images whose first pod never leaves
`Pending`: the worker creates only the first pod and dies with the uncaught
`RuntimeError` of `wait_for_pod` (poll budget 3600); the second image
(`pp-o-good-1`) is never attempted, contradicting the claim that the worker
continues with the node's remaining images. -/
theorem c4_counterexample_worker_aborts :
    runPodsForNode
        (fun pn _ => if pn = "pp-o-stuck-1" then "Pending" else "Succeeded")
        3600
        [{ image := "o/stuck", node := "n-1" }, { image := "o/good", node := "n-1" }]
      = (["pp-o-stuck-1"], Option.some PyExc.runtimeError) := by
  rw [runPodsForNode_stuck_head _ _ _ _ (fun t => by decide)]
  decide

/-- C5, counterexample.  With keep count `k = 0` the slice `tags[:-0]` is
`tags[:0] = []`, so NOTHING is selected, although the claim requires exactly
the tags older than the 0 most recently updated ones -- that is, all of them
(here the single weekly tag `w1`, which the claim-side split
`sorted.take (len - k)` does produce). -/
theorem c5_counterexample_keep_zero :
    reapableKeys (fun _ => { last_updated := 1, hash := "h1" }) {} ["w1"] 10 15 0
      = [] ∧
    (sortAscByTime (fun _ => 1) ["w1"]).take (1 - 0) = ["w1"] := by
  exact ⟨rfl, rfl⟩

/-- C7, counterexample.  Pod names are NOT always pairwise distinct: the name
uses only the node's last `-`-separated component, so the 2-node × 3-image
matrix with nodes `a-1` and `b-1` produces 6 specs but duplicated names
(`pp-own-i1-t-1` twice, etc.). -/
theorem c7_counterexample_name_collision :
    (allPodNames ["a-1", "b-1"] ["own/i1:t", "own/i2:t", "own/i3:t"]).length = 6 ∧
    ¬ (allPodNames ["a-1", "b-1"] ["own/i1:t", "own/i2:t", "own/i3:t"]).Nodup := by
  exact ⟨rfl, by decide⟩

/-- C10, counterexample.  The second `_select_victims` call does NOT always
produce a different reapable set: with a single weekly tag and the default
keep counts (10/15/78) both the first and the second call select nothing
(`[:-78]` of a 1-element and of a 2-element list are both empty), so the two
reapable sets are equal, contradicting the claim's "for every Reaper ...
differs". -/
theorem c10_counterexample_small_category_equal_reapable :
    reapableKeys (fun _ => { last_updated := 1, hash := "h1" }) {} ["w1"] 10 15 78
      = [] ∧
    reapableKeys (fun _ => { last_updated := 1, hash := "h1" })
        ((selectVictims (fun _ => { last_updated := 1, hash := "h1" }) {}
          ["w1"] 10 15 78).fst)
        ["w1"] 10 15 78 = [] := by
  exact ⟨rfl, rfl⟩

/-- Pages that report a `next` cursor only accumulate results: the fetch loop
continues into the remaining oracle answers. -/
theorem fetchPages_allnext (pre : List PageResp)
    (hpre : ∀ r ∈ pre, ∃ res, r = PageResp.page res true) :
    ∀ (acc : List RawTag) (s : List PageResp),
      ∃ acc2, fetchPages (pre ++ s) acc = fetchPages s acc2 := by
  induction pre with
  | nil => exact fun acc s => ⟨acc, rfl⟩
  | cons r pre ih =>
    intro acc s
    obtain ⟨res, rfl⟩ := hpre r (List.mem_cons_self r pre)
    simpa [fetchPages] using
      ih (fun q hq => hpre q (List.mem_cons_of_mem _ hq)) (acc ++ res) s

/-- `_reduce_results` writes `self.data` and `self._all_tags` only in its two
final statements, so on a raise the state is untouched. -/
theorem reduceResults_error_state (cfg : ScanCfg) (st : ScanState)
    (raws : List RawTag) (e : PyExc) (st2 : ScanState)
    (h : reduceResults cfg st raws = (Option.some e, st2)) : st2 = st := by
  cases hs : sortStep cfg.sort_field (bucketize (reduceDict raws)) with
  | error e2 =>
    simp only [reduceResults, hs, Prod.mk.injEq, Option.some.injEq] at h
    exact h.2.symm
  | ok b2 => simp [reduceResults, hs] at h

/-- C2 (corrected).  `scan()` raises the transport-flavoured `ValueError`
when the registry stops answering (or a page request fails at transport
level), raises the decode-flavoured `ValueError` when a page's body does not
decode as JSON -- including a non-JSON body, which the original claim
mis-assigned to the transport error -- and on ANY failure leaves the
previously stored ScanResult (`get_data` / `get_all_tags`) unchanged. -/
theorem c2_scan_error_taxonomy_and_state_preservation
    (cfg : ScanCfg) (st : ScanState) (pre rest : List PageResp)
    (hpre : ∀ r ∈ pre, ∃ res, r = PageResp.page res true) :
    scan cfg st (pre ++ PageResp.transportFail :: rest)
      = (Option.some PyExc.transport, st) ∧
    scan cfg st (pre ++ PageResp.badJson :: rest)
      = (Option.some PyExc.decode, st) ∧
    scan cfg st pre = (Option.some PyExc.transport, st) ∧
    (∀ resps e st2, scan cfg st resps = (Option.some e, st2) →
      get_data st2 = get_data st ∧ get_all_tags st2 = get_all_tags st) := by
  refine ⟨?_, ?_, ?_, ?_⟩
  · obtain ⟨acc2, heq⟩ :=
      fetchPages_allnext pre hpre [] (PageResp.transportFail :: rest)
    unfold scan
    rw [heq]
    rfl
  · obtain ⟨acc2, heq⟩ :=
      fetchPages_allnext pre hpre [] (PageResp.badJson :: rest)
    unfold scan
    rw [heq]
    rfl
  · obtain ⟨acc2, heq⟩ := fetchPages_allnext pre hpre [] []
    unfold scan
    rw [List.append_nil] at heq
    rw [heq]
    rfl
  · intro resps e st2 h
    unfold scan at h
    cases hf : fetchPages resps [] with
    | error e2 =>
      rw [hf] at h
      cases h
      exact ⟨rfl, rfl⟩
    | ok results =>
      rw [hf] at h
      rw [reduceResults_error_state cfg st results e st2 h]
      exact ⟨rfl, rfl⟩

/-- Witness for C2 at a concrete registry interaction: one well-formed page
with a `next` cursor, followed by each kind of anomaly. -/
theorem c2_scan_error_taxonomy_witness :
    scan { owner := "o", rname := "n" }
        { data := { daily := [{ name := "d1", rid := 1, size := 2, updated := 3 }] },
          all_tags := ["d1"] }
        ([PageResp.page [{ name := "w1", rid := 4, full_size := 5, last_updated := 6 }] true]
          ++ PageResp.transportFail :: [])
      = (Option.some PyExc.transport,
         { data := { daily := [{ name := "d1", rid := 1, size := 2, updated := 3 }] },
           all_tags := ["d1"] }) := by
  exact (c2_scan_error_taxonomy_and_state_preservation _ _
    [PageResp.page [{ name := "w1", rid := 4, full_size := 5, last_updated := 6 }] true]
    [] (by intro r hr; simp at hr; exact ⟨_, hr⟩)).1

/-- The bucketing loop is the sequence of `filter`s induced by the `elif`
chain (with the `other` bucket holding bare names). -/
theorem bucketize_eq (l : List Red) :
    bucketize l =
      { rel := l.filter isRelTagB, wk := l.filter isWkTagB,
        dy := l.filter isDyTagB, ex := l.filter isExTagB,
        lt := l.filter isLtTagB,
        ot := (l.filter isOtTagB).map Red.name } := by
  induction l with
  | nil => rfl
  | cons c rest ih =>
    simp only [bucketize, ih, routeTag]
    cases hr : pyStartsWith c.name "r" <;>
      cases hw : pyStartsWith c.name "w" <;>
        cases hd : pyStartsWith c.name "d" <;>
          cases he : pyStartsWith c.name "exp" <;>
            cases hl : pyStartsWith c.name "latest" <;>
              simp [List.filter, isRelTagB, isWkTagB, isDyTagB, isExTagB,
                isLtTagB, isOtTagB, hr, hw, hd, he, hl]

/-- Names after a dict insertion: an existing key keeps the name list, a new
key appends its name. -/
theorem pyInsertRed_names (acc : List Red) (c : Red) :
    (pyInsertRed acc c).map Red.name =
      if c.name ∈ acc.map Red.name then acc.map Red.name
      else acc.map Red.name ++ [c.name] := by
  induction acc with
  | nil => simp [pyInsertRed]
  | cons x rest ih =>
    by_cases hx : x.name = c.name
    · simp [pyInsertRed, hx]
    · have hne : ¬(c.name = x.name) := fun h => hx h.symm
      by_cases hm : c.name ∈ rest.map Red.name
      · simp [pyInsertRed, hx, ih, hm, hne]
      · simp [pyInsertRed, hx, ih, hm, hne]

/-- The names of the `reduced_results` dict are distinct: it is keyed by tag
name. -/
theorem reduceDict_names_nodup (raws : List RawTag) :
    ((reduceDict raws).map Red.name).Nodup := by
  have main : ∀ (rs : List RawTag) (acc : List Red),
      (acc.map Red.name).Nodup →
      ((rs.foldl (fun a res => pyInsertRed a
          { name := res.name, rid := res.rid, size := res.full_size,
            updated := res.last_updated }) acc).map Red.name).Nodup := by
    intro rs
    induction rs with
    | nil => exact fun acc h => h
    | cons r rest ih =>
      intro acc h
      refine ih _ ?_
      rw [pyInsertRed_names]
      split
      · exact h
      · simp only [List.nodup_append, List.nodup_cons, List.nodup_nil]
        refine ⟨h, ⟨by simp, trivial⟩, ?_⟩
        intro a ha hb
        simp at hb
        subst hb
        exact (by assumption : _ ∉ _) ha
  exact main raws [] (by simp)

/-- Decomposition of a successful `sortStep`: the `other` bucket passes
through untouched, and each candidate bucket keeps exactly its members (for
the `name` sort field the buckets are returned unchanged; otherwise they are
permuted by the in-place sort). -/
theorem sortStep_ok_mem (sf : SortField) (b b2 : Buckets)
    (h : sortStep sf b = Except.ok b2) :
    b2.ot = b.ot ∧
    (∀ x, x ∈ b2.lt ↔ x ∈ b.lt) ∧ (∀ x, x ∈ b2.ex ↔ x ∈ b.ex) ∧
    (∀ x, x ∈ b2.dy ↔ x ∈ b.dy) ∧ (∀ x, x ∈ b2.wk ↔ x ∈ b.wk) ∧
    (∀ x, x ∈ b2.rel ↔ x ∈ b.rel) := by
  by_cases hsf : sf = SortField.name
  · simp only [sortStep, if_pos hsf] at h
    cases h1 : sortImagesByName b.lt with
    | error e => rw [h1] at h; cases h
    | ok o1 =>
      rw [h1] at h
      cases h2 : sortImagesByName b.ex with
      | error e => rw [h2] at h; cases h
      | ok o2 =>
        rw [h2] at h
        cases h3 : sortImagesByName b.dy with
        | error e => rw [h3] at h; cases h
        | ok o3 =>
          rw [h3] at h
          cases h4 : sortImagesByName b.wk with
          | error e => rw [h4] at h; cases h
          | ok o4 =>
            rw [h4] at h
            cases h5 : sortImagesByName b.rel with
            | error e => rw [h5] at h; cases h
            | ok o5 =>
              rw [h5] at h
              cases h
              exact ⟨rfl, fun _ => Iff.rfl, fun _ => Iff.rfl,
                fun _ => Iff.rfl, fun _ => Iff.rfl, fun _ => Iff.rfl⟩
  · simp only [sortStep, if_neg hsf] at h
    cases h
    refine ⟨rfl, ?_, ?_, ?_, ?_, ?_⟩ <;>
      intro x <;> exact List.mem_insertionSort _

/-- A record routed to any of the five candidate buckets is not an
`other`-bucket record. -/
theorem not_isOtTagB_of_bucket (y : Red)
    (h : isRelTagB y = true ∨ isWkTagB y = true ∨ isDyTagB y = true ∨
      isExTagB y = true ∨ isLtTagB y = true) : isOtTagB y = false := by
  simp only [isRelTagB, isWkTagB, isDyTagB, isExTagB, isLtTagB, isOtTagB] at *
  cases hr : pyStartsWith y.name "r" <;>
    cases hw : pyStartsWith y.name "w" <;>
      cases hd : pyStartsWith y.name "d" <;>
        cases he : pyStartsWith y.name "exp" <;>
          cases hl : pyStartsWith y.name "latest" <;>
            simp_all

/-- C3 (corrected).  After a successful reduce, `get_all_tags` is the
concatenation of the FULL (untruncated) candidate lists in the order latest,
experimental, daily, weekly, release; its length is the sum of those five
bucket sizes (not of the kept counts); the category map keeps only the
configured top counts of daily/weekly/release; and `other`-category tags are
omitted from the sequence entirely. -/
theorem c3_all_tags_structure (cfg : ScanCfg) (st : ScanState)
    (raws : List RawTag) (st2 : ScanState)
    (h : reduceResults cfg st raws = (Option.none, st2)) :
    ∃ b2, sortStep cfg.sort_field (bucketize (reduceDict raws)) = Except.ok b2 ∧
      get_all_tags st2 =
        b2.lt.map Red.name ++ b2.ex.map Red.name ++ b2.dy.map Red.name ++
          b2.wk.map Red.name ++ b2.rel.map Red.name ∧
      (get_all_tags st2).length =
        b2.lt.length + b2.ex.length + b2.dy.length + b2.wk.length +
          b2.rel.length ∧
      get_data st2 =
        { daily := b2.dy.take cfg.dailies, weekly := b2.wk.take cfg.weeklies,
          release := b2.rel.take cfg.releases } ∧
      ∀ t ∈ (bucketize (reduceDict raws)).ot, t ∉ get_all_tags st2 := by
  cases hs : sortStep cfg.sort_field (bucketize (reduceDict raws)) with
  | error e => simp [reduceResults, hs] at h
  | ok b2 =>
    simp only [reduceResults, hs, Prod.mk.injEq] at h
    refine ⟨b2, rfl, ?_, ?_, ?_, ?_⟩
    · rw [← h.2]; rfl
    · rw [← h.2]
      simp [get_all_tags, Nat.add_assoc]
    · rw [← h.2]; rfl
    · intro t hto htin
      rw [← h.2] at htin
      obtain ⟨hot, hlt, hex, hdy, hwk, hrel⟩ := sortStep_ok_mem _ _ _ hs
      -- the other-bucket name comes from a record failing every predicate
      rw [bucketize_eq] at hto
      simp only [List.mem_map, List.mem_filter] at hto
      obtain ⟨x, ⟨hxmem, hxot⟩, hxname⟩ := hto
      -- the all_tags name comes from a record in one of the five buckets
      simp only [get_all_tags, List.mem_append, List.mem_map] at htin
      have hy : ∃ y, y ∈ reduceDict raws ∧ y.name = t ∧
          (isRelTagB y = true ∨ isWkTagB y = true ∨ isDyTagB y = true ∨
            isExTagB y = true ∨ isLtTagB y = true) := by
        rcases htin with ((((⟨y, hy, hyn⟩ | ⟨y, hy, hyn⟩) | ⟨y, hy, hyn⟩) |
            ⟨y, hy, hyn⟩) | ⟨y, hy, hyn⟩)
        · rw [hlt, bucketize_eq] at hy
          simp only [List.mem_filter] at hy
          exact ⟨y, hy.1, hyn, Or.inr (Or.inr (Or.inr (Or.inr hy.2)))⟩
        · rw [hex, bucketize_eq] at hy
          simp only [List.mem_filter] at hy
          exact ⟨y, hy.1, hyn, Or.inr (Or.inr (Or.inr (Or.inl hy.2)))⟩
        · rw [hdy, bucketize_eq] at hy
          simp only [List.mem_filter] at hy
          exact ⟨y, hy.1, hyn, Or.inr (Or.inr (Or.inl hy.2))⟩
        · rw [hwk, bucketize_eq] at hy
          simp only [List.mem_filter] at hy
          exact ⟨y, hy.1, hyn, Or.inr (Or.inl hy.2)⟩
        · rw [hrel, bucketize_eq] at hy
          simp only [List.mem_filter] at hy
          exact ⟨y, hy.1, hyn, Or.inl hy.2⟩
      obtain ⟨y, hymem, hyname, hypred⟩ := hy
      have hxy : x = y :=
        List.inj_on_of_nodup_map (reduceDict_names_nodup raws)
          hxmem hymem (by rw [hxname, hyname])
      rw [hxy] at hxot
      rw [not_isOtTagB_of_bucket y hypred] at hxot
      cases hxot

/-- Witness for C3: a successful default-config scan of four legacy daily
tags and one `other` tag keeps only 3 dailies in the category map while
`get_all_tags` lists all four dailies and omits `custom`. -/
theorem c3_all_tags_structure_witness :
    ∃ b2, sortStep SortField.name
        (bucketize (reduceDict
          [RawTag.mk "d20200101" 1 0 1, RawTag.mk "d20200102" 2 0 2,
           RawTag.mk "d20200103" 3 0 3, RawTag.mk "d20200104" 4 0 4,
           RawTag.mk "custom" 5 0 5])) = Except.ok b2 ∧
      get_all_tags (ScanState.mk
          (CatMap.mk [Red.mk "d20200101" 1 0 1, Red.mk "d20200102" 2 0 2,
            Red.mk "d20200103" 3 0 3] [] [])
          ["d20200101", "d20200102", "d20200103", "d20200104"]) =
        b2.lt.map Red.name ++ b2.ex.map Red.name ++ b2.dy.map Red.name ++
          b2.wk.map Red.name ++ b2.rel.map Red.name ∧
      (get_all_tags (ScanState.mk
          (CatMap.mk [Red.mk "d20200101" 1 0 1, Red.mk "d20200102" 2 0 2,
            Red.mk "d20200103" 3 0 3] [] [])
          ["d20200101", "d20200102", "d20200103", "d20200104"])).length =
        b2.lt.length + b2.ex.length + b2.dy.length + b2.wk.length +
          b2.rel.length ∧
      get_data (ScanState.mk
          (CatMap.mk [Red.mk "d20200101" 1 0 1, Red.mk "d20200102" 2 0 2,
            Red.mk "d20200103" 3 0 3] [] [])
          ["d20200101", "d20200102", "d20200103", "d20200104"]) =
        CatMap.mk (b2.dy.take 3) (b2.wk.take 2) (b2.rel.take 1) ∧
      ∀ t ∈ (bucketize (reduceDict
          [RawTag.mk "d20200101" 1 0 1, RawTag.mk "d20200102" 2 0 2,
           RawTag.mk "d20200103" 3 0 3, RawTag.mk "d20200104" 4 0 4,
           RawTag.mk "custom" 5 0 5])).ot,
        t ∉ get_all_tags (ScanState.mk
          (CatMap.mk [Red.mk "d20200101" 1 0 1, Red.mk "d20200102" 2 0 2,
            Red.mk "d20200103" 3 0 3] [] [])
          ["d20200101", "d20200102", "d20200103", "d20200104"]) :=
  c3_all_tags_structure (ScanCfg.mk "o" "n" 3 2 1 SortField.name) {} _ _ rfl

/-- The split of a string never produces the empty chunk list. -/
theorem pySplitChar_ne_nil (sep : Char) (l : List Char) :
    pySplitChar sep l ≠ [] := by
  cases l with
  | nil => simp [pySplitChar]
  | cons c rest =>
    simp only [pySplitChar]
    cases hps : pySplitChar sep rest with
    | nil => simp
    | cons h t => by_cases hcs : c = sep <;> simp [hcs]

/-- The chunks produced by splitting on a separator never contain the
separator. -/
theorem pySplitChar_no_sep (sep : Char) :
    ∀ (l : List Char), ∀ chunk ∈ pySplitChar sep l, sep ∉ chunk := by
  intro l
  induction l with
  | nil =>
    intro chunk hc
    simp only [pySplitChar, List.mem_singleton] at hc
    simp [hc]
  | cons c rest ih =>
    intro chunk hc
    cases hps : pySplitChar sep rest with
    | nil => exact absurd hps (pySplitChar_ne_nil sep rest)
    | cons h t =>
      have hc2 : chunk ∈ (if c = sep then [] :: h :: t else (c :: h) :: t) := by
        have : pySplitChar sep (c :: rest) =
            (if c = sep then [] :: h :: t else (c :: h) :: t) := by
          rw [pySplitChar, hps]
        rw [this] at hc
        exact hc
      by_cases hcs : c = sep
      · rw [if_pos hcs] at hc2
        rcases List.mem_cons.1 hc2 with h1 | h1
        · simp [h1]
        · exact ih chunk (hps ▸ h1)
      · rw [if_neg hcs] at hc2
        rcases List.mem_cons.1 hc2 with h1 | h1
        · subst h1
          intro hmem
          rcases List.mem_cons.1 hmem with h2 | h2
          · exact hcs h2.symm
          · exact ih h (hps ▸ List.mem_cons_self h t) h2
        · exact ih chunk (hps ▸ List.mem_cons_of_mem h h1)

/-- A node's dash suffix contains no dash. -/
theorem nodeSuffix_no_dash (node : String) : '-' ∉ nodeSuffix node := by
  unfold nodeSuffix
  cases hps : pySplitChar '-' node.data with
  | nil => exact absurd hps (pySplitChar_ne_nil '-' node.data)
  | cons h t =>
    have hmem : (h :: t).getLastD [] ∈ h :: t := by
      rw [List.getLastD_cons]
      exact List.getLastD_mem_cons t h
    exact pySplitChar_no_sep '-' node.data _ (hps ▸ hmem)

/-- Cancellation around the last dash: if the right parts are dash-free, the
decomposition `a ++ '-' :: s` of a character list is unique. -/
theorem append_dash_inj :
    ∀ (a a2 s s2 : List Char), '-' ∉ s → '-' ∉ s2 →
      a ++ '-' :: s = a2 ++ '-' :: s2 → a = a2 ∧ s = s2 := by
  intro a
  induction a with
  | nil =>
    intro a2 s s2 hs hs2 h
    cases a2 with
    | nil => simpa using h
    | cons c2 r2 =>
      simp only [List.nil_append, List.cons_append, List.cons.injEq] at h
      exact absurd (h.2 ▸ List.mem_append_right r2 (List.mem_cons_self '-' s2))
        hs
  | cons c r ih =>
    intro a2 s s2 hs hs2 h
    cases a2 with
    | nil =>
      simp only [List.nil_append, List.cons_append, List.cons.injEq] at h
      exact absurd (h.2.symm ▸ List.mem_append_right r (List.mem_cons_self '-' s))
        hs2
    | cons c2 r2 =>
      simp only [List.cons_append, List.cons.injEq] at h
      obtain ⟨h1, h2⟩ := ih r2 s s2 hs hs2 h.2
      exact ⟨by rw [h.1, h1], h2⟩

/-- Derived pod names determine the sanitized image name and the node
suffix. -/
theorem derivePodName_inj (i i2 n n2 : String)
    (h : derivePodName (PodSpec.mk i n) = derivePodName (PodSpec.mk i2 n2)) :
    podnameFromImage i = podnameFromImage i2 ∧ nodeSuffix n = nodeSuffix n2 := by
  have hd := congrArg String.data h
  simp only [derivePodName, String.data_append] at hd
  have hr : ("pp-".data ++ (podnameFromImage i).data) ++ '-' :: nodeSuffix n =
      ("pp-".data ++ (podnameFromImage i2).data) ++ '-' :: nodeSuffix n2 := by
    simpa [List.append_assoc] using hd
  obtain ⟨h1, h2⟩ := append_dash_inj _ _ _ _ (nodeSuffix_no_dash n)
    (nodeSuffix_no_dash n2) hr
  exact ⟨String.ext (List.append_cancel_left h1), h2⟩

/-- Unfolding of `allPodNames` over the node list. -/
theorem allPodNames_cons (n : String) (ns imgs : List String) :
    allPodNames (n :: ns) imgs =
      imgs.map (fun i => derivePodName (PodSpec.mk i n)) ++ allPodNames ns imgs := by
  simp [allPodNames, buildPodSpecs, List.map_map, Function.comp]

/-- Every name in the matrix comes from a (node, image) pair. -/
theorem mem_allPodNames (imgs : List String) :
    ∀ (ns : List String) (x : String), x ∈ allPodNames ns imgs →
      ∃ n ∈ ns, ∃ i ∈ imgs, x = derivePodName (PodSpec.mk i n) := by
  intro ns
  induction ns with
  | nil => intro x hx; simp [allPodNames, buildPodSpecs] at hx
  | cons n rest ih =>
    intro x hx
    rw [allPodNames_cons] at hx
    rcases List.mem_append.1 hx with hx1 | hx1
    · obtain ⟨i, hi, hix⟩ := List.mem_map.1 hx1
      exact ⟨n, List.mem_cons_self n rest, i, hi, hix.symm⟩
    · obtain ⟨n2, hn2, i, hi, hix⟩ := ih x hx1
      exact ⟨n2, List.mem_cons_of_mem n hn2, i, hi, hix⟩

/-- The name matrix has one entry per (node, image) pair. -/
theorem allPodNames_length (nodes imgs : List String) :
    (allPodNames nodes imgs).length = nodes.length * imgs.length := by
  induction nodes with
  | nil => simp [allPodNames, buildPodSpecs]
  | cons n ns ih =>
    rw [allPodNames_cons]
    simp [ih, Nat.succ_mul, Nat.add_comm]

/-- C7 (corrected).  `build_pod_specs` produces exactly one spec per
(node, image) pair, and the derived names are a pure function of the image
and node (so re-invocation is idempotent by construction); but the names are
pairwise distinct only under the hypotheses the derivation actually uses:
the sanitized image names must be distinct and the nodes' final
dash-separated components must be distinct (two nodes such as `a-1` and
`b-1` collide, see the counterexample). -/
theorem c7_pod_specs_per_pair (nodes imgs : List String)
    (himg : (imgs.map podnameFromImage).Nodup)
    (hnode : (nodes.map nodeSuffix).Nodup) :
    (allPodNames nodes imgs).length = nodes.length * imgs.length ∧
    (allPodNames nodes imgs).Nodup := by
  refine ⟨allPodNames_length nodes imgs, ?_⟩
  revert hnode
  induction nodes with
  | nil => intro _; simp [allPodNames, buildPodSpecs]
  | cons n ns ih =>
    intro hnode
    rw [allPodNames_cons]
    have hnodetail : (ns.map nodeSuffix).Nodup :=
      (List.nodup_cons.1 hnode).2
    refine List.Nodup.append ?_ (ih hnodetail) ?_
    · refine List.Nodup.map_on ?_ himg.of_map
      intro x hx y hy hxy
      exact List.inj_on_of_nodup_map himg hx hy
        (derivePodName_inj x y n n hxy).1
    · intro x hx1 hx2
      obtain ⟨i, hi, rfl⟩ := List.mem_map.1 hx1
      obtain ⟨n2, hn2, i2, hi2, heq⟩ := mem_allPodNames imgs ns _ hx2
      have h2 := (derivePodName_inj i i2 n n2 heq).2
      exact (List.nodup_cons.1 hnode).1
        (List.mem_map.2 ⟨n2, hn2, h2.symm⟩)

/-- Witness for C7: the 2-node × 3-image matrix with distinct node suffixes
yields exactly 6 pairwise distinct deterministic names. -/
theorem c7_pod_specs_per_pair_witness :
    (allPodNames ["node-a", "node-b"] ["own/i1:t", "own/i2:t", "own/i3:t"]).length
      = 6 ∧
    (allPodNames ["node-a", "node-b"] ["own/i1:t", "own/i2:t", "own/i3:t"]).Nodup :=
  c7_pod_specs_per_pair ["node-a", "node-b"] ["own/i1:t", "own/i2:t", "own/i3:t"]
    (by decide) (by decide)

/-- C4 (corrected).  A pod that never reaches `Succeeded`/`Failed` within the
poll budget makes `wait_for_pod` raise (the `RuntimeError` at the
`PrepullTimeoutError` site), but the owning node's worker does NOT continue:
`run_pods_for_node` has no handler, so the worker thread dies after that pod
and the node's remaining images are never attempted.  Other nodes' workers
are unaffected: each thread's outcome is a function of its own spec list
only. -/
theorem c4_timeout_aborts_node_worker (phasesOf : String → Nat → String)
    (maxTries : Nat) (spec : PodSpec) (rest : List PodSpec)
    (h : ∀ t, terminalPhase (phasesOf (derivePodName spec) t) = false) :
    waitForPod (phasesOf (derivePodName spec)) 1 maxTries
      = Except.error PyExc.runtimeError ∧
    runPodsForNode phasesOf maxTries (spec :: rest)
      = ([derivePodName spec], Option.some PyExc.runtimeError) ∧
    ∀ specs : List (String × List PodSpec), ∀ p ∈ specs,
      (p.fst, runPodsForNode phasesOf maxTries p.snd)
        ∈ runPods phasesOf maxTries specs := by
  refine ⟨waitLoop_stuck _ h maxTries 1 maxTries,
    runPodsForNode_stuck_head phasesOf maxTries spec rest h, ?_⟩
  intro specs p hp
  exact List.mem_map.2 ⟨p, hp, rfl⟩

/-- Witness for C4: the stuck pod `pp-o-stuck-1` with the default budget of
3600 polls. -/
theorem c4_timeout_aborts_node_worker_witness :
    waitForPod
        ((fun pn _ => if pn = "pp-o-stuck-1" then "Pending" else "Succeeded")
          (derivePodName (PodSpec.mk "o/stuck" "n-1"))) 1 3600
      = Except.error PyExc.runtimeError ∧
    runPodsForNode
        (fun pn _ => if pn = "pp-o-stuck-1" then "Pending" else "Succeeded")
        3600 [PodSpec.mk "o/stuck" "n-1", PodSpec.mk "o/good" "n-1"]
      = ([derivePodName (PodSpec.mk "o/stuck" "n-1")],
         Option.some PyExc.runtimeError) ∧
    ∀ specs : List (String × List PodSpec), ∀ p ∈ specs,
      (p.fst, runPodsForNode
          (fun pn _ => if pn = "pp-o-stuck-1" then "Pending" else "Succeeded")
          3600 p.snd)
        ∈ runPods
            (fun pn _ => if pn = "pp-o-stuck-1" then "Pending" else "Succeeded")
            3600 specs :=
  c4_timeout_aborts_node_worker
    (fun pn _ => if pn = "pp-o-stuck-1" then "Pending" else "Succeeded")
    3600 (PodSpec.mk "o/stuck" "n-1") [PodSpec.mk "o/good" "n-1"]
    (fun t => by
      show terminalPhase
          (if derivePodName (PodSpec.mk "o/stuck" "n-1") = "pp-o-stuck-1"
            then "Pending" else "Succeeded") = false
      decide)

/-- After `headers.update({"Authorization": v})` the `Authorization` header
is `v`, whatever was there before. -/
theorem lookup_updateAssoc_auth (headers : List (String × String)) (v : String) :
    (updateAssoc headers [("Authorization", v)]).lookup "Authorization"
      = Option.some v := by
  show (setAssoc headers "Authorization" v).lookup "Authorization"
      = Option.some v
  induction headers with
  | nil => simp [setAssoc, List.lookup]
  | cons kv rest ih =>
    by_cases hk : kv.fst = "Authorization"
    · simp [setAssoc, hk, List.lookup]
    · simp only [setAssoc, if_neg hk]
      rw [show ((kv :: setAssoc rest "Authorization" v).lookup "Authorization")
          = (setAssoc rest "Authorization" v).lookup "Authorization" from ?_]
      · exact ih
      · cases kv with
        | mk k vv =>
          simp only at hk
          simp [List.lookup, show ("Authorization" == k) = false from
            beq_false_of_ne (fun h => hk h.symm)]

/-- The delete loop, run under well-formed 401 challenges, processes every
tag: exactly two `DELETE` calls on a 401 first answer (one otherwise), the
map entry removed exactly on a final 2xx, and the retry carrying the freshly
obtained bearer token. -/
theorem deleteLoop_ok (sim : String → DelSim) :
    ∀ (tags : List String) (m : List (String × TagInfo))
      (headers : List (String × String)),
      (∀ t ∈ tags, (sim t).firstStatus = 401 →
        ∃ hdr, authenticateToRepo (sim t).wwwAuth (sim t).tokenResp
          = Except.ok (Option.some hdr)) →
      ∃ mf traces,
        deleteLoop sim tags m headers = Except.ok (mf, traces) ∧
        traces.map (fun tr => (tr.tag, tr.calls, tr.finalStatus, tr.removed)) =
          tags.map (fun t =>
            (t, if (sim t).firstStatus = 401 then 2 else 1,
              finalStatusOf sim t, isOkStatus (finalStatusOf sim t))) ∧
        mf = tags.foldl (fun acc t =>
          if isOkStatus (finalStatusOf sim t) then eraseKeyTI acc t else acc) m ∧
        ∀ tr ∈ traces, ∀ tok, (sim tr.tag).firstStatus = 401 →
          authenticateToRepo (sim tr.tag).wwwAuth (sim tr.tag).tokenResp
            = Except.ok (Option.some [("Authorization", "Bearer " ++ tok)]) →
          tr.retryAuth = Option.some ("Bearer " ++ tok) := by
  intro tags
  induction tags with
  | nil =>
    intro m headers _
    exact ⟨m, [], rfl, rfl, rfl, by simp⟩
  | cons t rest ih =>
    intro m headers hch
    by_cases h401 : (sim t).firstStatus = 401
    · obtain ⟨hdr, hauth⟩ :=
        hch t (List.mem_cons_self t rest) h401
      obtain ⟨mf, traces, hrec, htr, hmf, hauthc⟩ :=
        ih (if isOkStatus (sim t).retryStatus then eraseKeyTI m t else m)
          (updateAssoc headers hdr)
          (fun q hq => hch q (List.mem_cons_of_mem t hq))
      refine ⟨mf,
        TagTrace.mk t 2 (sim t).retryStatus (isOkStatus (sim t).retryStatus)
          ((updateAssoc headers hdr).lookup "Authorization") :: traces,
        ?_, ?_, ?_, ?_⟩
      · simp only [deleteLoop, if_pos h401, hauth, hrec]
      · simp only [List.map_cons, htr, finalStatusOf, if_pos h401]
      · simp only [List.foldl_cons, hmf, finalStatusOf, if_pos h401]
      · intro tr htr2 tok h401b hauthb
        rcases List.mem_cons.1 htr2 with h1 | h1
        · subst h1
          simp only at hauthb ⊢
          rw [hauthb] at hauth
          cases hauth
          exact lookup_updateAssoc_auth headers _
        · exact hauthc tr h1 tok h401b hauthb
    · obtain ⟨mf, traces, hrec, htr, hmf, hauthc⟩ :=
        ih (if isOkStatus (sim t).firstStatus then eraseKeyTI m t else m)
          headers (fun q hq => hch q (List.mem_cons_of_mem t hq))
      refine ⟨mf,
        TagTrace.mk t 1 (sim t).firstStatus (isOkStatus (sim t).firstStatus)
          Option.none :: traces,
        ?_, ?_, ?_, ?_⟩
      · simp only [deleteLoop, if_neg h401, hrec]
      · simp only [List.map_cons, htr, finalStatusOf, if_neg h401]
      · simp only [List.foldl_cons, hmf, finalStatusOf, if_neg h401]
      · intro tr htr2 tok h401b hauthb
        rcases List.mem_cons.1 htr2 with h1 | h1
        · subst h1; exact absurd h401b h401
        · exact hauthc tr h1 tok h401b hauthb

/-- C6 (confirmed).  For every reap cycle whose 401 answers carry well-formed
bearer challenges, `_delete_from_repo` issues exactly one `DELETE` per tag
plus exactly one retry for each tag whose first answer is 401, retries with
the token obtained from the realm endpoint, removes a tag from
`_results_map` exactly when the (possibly retried) delete returns 2xx, and
keeps going through the remaining tags when a retry fails (every tag of the
victim list is processed). -/
theorem c6_delete_retry_once (sim : String → DelSim) (tags : List String)
    (m : List (String × TagInfo)) (hne : tags ≠ [])
    (hch : ∀ t ∈ tags, (sim t).firstStatus = 401 →
      ∃ hdr, authenticateToRepo (sim t).wwwAuth (sim t).tokenResp
        = Except.ok (Option.some hdr)) :
    ∃ mf traces,
      deleteFromRepo sim false tags m = Except.ok (mf, traces) ∧
      traces.map (fun tr => (tr.tag, tr.calls, tr.finalStatus, tr.removed)) =
        tags.map (fun t =>
          (t, if (sim t).firstStatus = 401 then 2 else 1,
            finalStatusOf sim t, isOkStatus (finalStatusOf sim t))) ∧
      mf = tags.foldl (fun acc t =>
        if isOkStatus (finalStatusOf sim t) then eraseKeyTI acc t else acc) m ∧
      ∀ tr ∈ traces, ∀ tok, (sim tr.tag).firstStatus = 401 →
        authenticateToRepo (sim tr.tag).wwwAuth (sim tr.tag).tokenResp
          = Except.ok (Option.some [("Authorization", "Bearer " ++ tok)]) →
        tr.retryAuth = Option.some ("Bearer " ++ tok) := by
  have h := deleteLoop_ok sim tags m
    [("Accept", "application/vnd.docker.distribution.manifest.v2+json")] hch
  simpa [deleteFromRepo, hne] using h

/-- Witness for C6: tag `t1` answers 401 with a well-formed bearer challenge
and succeeds on the retried delete (202); tag `t2` answers 401 and the retry
fails (500); the loop still processes both, removes only `t1`, and the retry
carries `Bearer tokT`. -/
theorem c6_delete_retry_once_witness :
    ∃ mf traces,
      deleteFromRepo
          (fun t => DelSim.mk 401
            "Bearer realm=\"https://auth/token\",service=\"reg\",scope=\"repository:x:delete\""
            (Option.some "tokT") (if t = "t1" then 202 else 500))
          false ["t1", "t2"]
          [("t1", TagInfo.mk 1 "h1"), ("t2", TagInfo.mk 2 "h2")]
        = Except.ok (mf, traces) ∧
      traces.map (fun tr => (tr.tag, tr.calls, tr.finalStatus, tr.removed)) =
        ["t1", "t2"].map (fun t =>
          (t, if ((fun t => DelSim.mk 401
              "Bearer realm=\"https://auth/token\",service=\"reg\",scope=\"repository:x:delete\""
              (Option.some "tokT") (if t = "t1" then 202 else 500)) t).firstStatus = 401
            then 2 else 1,
            finalStatusOf (fun t => DelSim.mk 401
              "Bearer realm=\"https://auth/token\",service=\"reg\",scope=\"repository:x:delete\""
              (Option.some "tokT") (if t = "t1" then 202 else 500)) t,
            isOkStatus (finalStatusOf (fun t => DelSim.mk 401
              "Bearer realm=\"https://auth/token\",service=\"reg\",scope=\"repository:x:delete\""
              (Option.some "tokT") (if t = "t1" then 202 else 500)) t))) ∧
      mf = ["t1", "t2"].foldl (fun acc t =>
        if isOkStatus (finalStatusOf (fun t => DelSim.mk 401
            "Bearer realm=\"https://auth/token\",service=\"reg\",scope=\"repository:x:delete\""
            (Option.some "tokT") (if t = "t1" then 202 else 500)) t)
          then eraseKeyTI acc t else acc)
        [("t1", TagInfo.mk 1 "h1"), ("t2", TagInfo.mk 2 "h2")] ∧
      ∀ tr ∈ traces, ∀ tok,
        ((fun t => DelSim.mk 401
          "Bearer realm=\"https://auth/token\",service=\"reg\",scope=\"repository:x:delete\""
          (Option.some "tokT") (if t = "t1" then 202 else 500)) tr.tag).firstStatus = 401 →
        authenticateToRepo
            ((fun t => DelSim.mk 401
              "Bearer realm=\"https://auth/token\",service=\"reg\",scope=\"repository:x:delete\""
              (Option.some "tokT") (if t = "t1" then 202 else 500)) tr.tag).wwwAuth
            ((fun t => DelSim.mk 401
              "Bearer realm=\"https://auth/token\",service=\"reg\",scope=\"repository:x:delete\""
              (Option.some "tokT") (if t = "t1" then 202 else 500)) tr.tag).tokenResp
          = Except.ok (Option.some [("Authorization", "Bearer " ++ tok)]) →
        tr.retryAuth = Option.some ("Bearer " ++ tok) :=
  c6_delete_retry_once _ ["t1", "t2"]
    [("t1", TagInfo.mk 1 "h1"), ("t2", TagInfo.mk 2 "h2")]
    (by decide)
    (by
      intro t ht h401
      refine ⟨[("Authorization", "Bearer tokT")], ?_⟩
      show authenticateToRepo
          "Bearer realm=\"https://auth/token\",service=\"reg\",scope=\"repository:x:delete\""
          (Option.some "tokT")
        = Except.ok (Option.some [("Authorization", "Bearer tokT")])
      decide)

/-- The categorize append loop is the three `filter`s induced by its `elif`
chain. -/
theorem appendReapTags_eq (tags : List String) :
    ∀ s : CatTags, appendReapTags s tags =
      CatTags.mk (s.weekly ++ tags.filter isWeeklyTagB)
        (s.daily ++ tags.filter isDailyTagB)
        (s.experimental ++ tags.filter isExpTagB) := by
  induction tags with
  | nil => intro s; simp [appendReapTags]
  | cons t rest ih =>
    intro s
    simp only [appendReapTags, ih]
    cases hw : pyStartsWith t "w" <;>
      cases hd : pyStartsWith t "d" <;>
        cases he : pyStartsWith t "exp" <;>
          simp [routeReapTag, isWeeklyTagB, isDailyTagB, isExpTagB,
            List.filter, hw, hd, he]

/-- Dict keys have the same members as the inserted key list. -/
theorem pyDictKeys_mem (t : String) :
    ∀ l : List String, t ∈ pyDictKeys l ↔ t ∈ l := by
  intro l
  induction l with
  | nil => simp [pyDictKeys]
  | cons k rest ih =>
    by_cases hk : k ∈ rest
    · simp only [pyDictKeys, if_pos hk, ih, List.mem_cons]
      constructor
      · exact Or.inr
      · rintro (rfl | h2)
        · exact hk
        · exact h2
    · simp [pyDictKeys, if_neg hk, ih]

/-- An in-range `getD` is a member. -/
theorem getD_mem_self : ∀ (l : List α) (i : Nat) (d : α),
    i < l.length → l.getD i d ∈ l := by
  intro l
  induction l with
  | nil => intro i d h; cases h
  | cons a rest ih =>
    intro i d h
    cases i with
    | zero => exact List.mem_cons_self a rest
    | succ j =>
      exact List.mem_cons_of_mem a (ih j d (Nat.lt_of_succ_lt_succ h))

/-- An in-range `getD` below the cut is a member of the `take`. -/
theorem getD_mem_take : ∀ (l : List α) (m i : Nat) (d : α),
    i < m → i < l.length → l.getD i d ∈ l.take m := by
  intro l
  induction l with
  | nil => intro m i d _ h; cases h
  | cons a rest ih =>
    intro m i d him h
    cases m with
    | zero => cases him
    | succ m2 =>
      cases i with
      | zero => simp [List.take]
      | succ j =>
        simp only [List.take, List.getD_cons_succ]
        exact List.mem_cons_of_mem a
          (ih m2 j d (Nat.lt_of_succ_lt_succ him) (Nat.lt_of_succ_lt_succ h))

/-- Members of a `take` are in-range `getD`s below the cut. -/
theorem mem_take_getD (d : α) : ∀ (l : List α) (m : Nat) (t : α),
    t ∈ l.take m → ∃ i, i < m ∧ i < l.length ∧ l.getD i d = t := by
  intro l
  induction l with
  | nil => intro m t ht; simp at ht
  | cons a rest ih =>
    intro m t ht
    cases m with
    | zero => simp at ht
    | succ m2 =>
      simp only [List.take, List.mem_cons] at ht
      rcases ht with rfl | ht2
      · exact ⟨0, Nat.succ_pos m2, Nat.succ_pos rest.length, rfl⟩
      · obtain ⟨i, h1, h2, h3⟩ := ih m2 t ht2
        exact ⟨i + 1, Nat.succ_lt_succ h1, Nat.succ_lt_succ h2, h3⟩

/-- An in-range `getD` at or past the cut is a member of the `drop`. -/
theorem getD_mem_drop : ∀ (l : List α) (i : Nat) (d : α),
    i < l.length → l.getD i d ∈ l.drop i := by
  intro l
  induction l with
  | nil => intro i d h; cases h
  | cons a rest ih =>
    intro i d h
    cases i with
    | zero => simp
    | succ j =>
      simp only [List.getD_cons_succ, List.drop]
      exact ih j d (Nat.lt_of_succ_lt_succ h)

/-- In a duplicate-free list, `getD` is injective on in-range indices. -/
theorem nodup_getD_inj : ∀ (l : List α), l.Nodup →
    ∀ (i j : Nat) (d : α), i < l.length → j < l.length →
      l.getD i d = l.getD j d → i = j := by
  intro l
  induction l with
  | nil => intro _ i j d h; cases h
  | cons a rest ih =>
    intro hnd i j d hi hj hij
    have hnd2 := List.nodup_cons.1 hnd
    cases i with
    | zero =>
      cases j with
      | zero => rfl
      | succ j2 =>
        exfalso
        apply hnd2.1
        rw [show a = rest.getD j2 d from hij]
        exact getD_mem_self rest j2 d (Nat.lt_of_succ_lt_succ hj)
    | succ i2 =>
      cases j with
      | zero =>
        exfalso
        apply hnd2.1
        rw [show a = rest.getD i2 d from hij.symm]
        exact getD_mem_self rest i2 d (Nat.lt_of_succ_lt_succ hi)
      | succ j2 =>
        have := ih hnd2.2 i2 j2 d (Nat.lt_of_succ_lt_succ hi)
          (Nat.lt_of_succ_lt_succ hj) hij
        rw [this]

/-- A tag starting with `w` does not start with `r`. -/
theorem pyStartsWith_w_not_r (t : String) (h : pyStartsWith t "w" = true) :
    pyStartsWith t "r" = false := by
  unfold pyStartsWith at *
  rw [show "w".data = ['w'] from rfl] at h
  rw [show "r".data = ['r'] from rfl]
  cases hd : t.data with
  | nil => rw [hd] at h; simp [List.isPrefixOf] at h
  | cons b bs =>
    rw [hd] at h
    simp only [List.isPrefixOf, List.isPrefixOf_nil_left, Bool.and_true] at h
    simp only [List.isPrefixOf, List.isPrefixOf_nil_left, Bool.and_true]
    have hb : b = 'w' := by
      cases hwb : ('w' == b) with
      | false => rw [hwb] at h; cases h
      | true => exact (beq_iff_eq.1 hwb).symm
    rw [hb]
    decide

/-- A tag starting with `d` does not start with `r`. -/
theorem pyStartsWith_d_not_r (t : String) (h : pyStartsWith t "d" = true) :
    pyStartsWith t "r" = false := by
  unfold pyStartsWith at *
  rw [show "d".data = ['d'] from rfl] at h
  rw [show "r".data = ['r'] from rfl]
  cases hd : t.data with
  | nil => rw [hd] at h; simp [List.isPrefixOf] at h
  | cons b bs =>
    rw [hd] at h
    simp only [List.isPrefixOf, List.isPrefixOf_nil_left, Bool.and_true] at h
    simp only [List.isPrefixOf, List.isPrefixOf_nil_left, Bool.and_true]
    have hb : b = 'd' := by
      cases hwb : ('d' == b) with
      | false => rw [hwb] at h; cases h
      | true => exact (beq_iff_eq.1 hwb).symm
    rw [hb]
    decide

/-- A tag starting with `exp` does not start with `r`. -/
theorem pyStartsWith_exp_not_r (t : String) (h : pyStartsWith t "exp" = true) :
    pyStartsWith t "r" = false := by
  unfold pyStartsWith at *
  rw [show "exp".data = ['e', 'x', 'p'] from rfl] at h
  rw [show "r".data = ['r'] from rfl]
  cases hd : t.data with
  | nil => rw [hd] at h; simp [List.isPrefixOf] at h
  | cons b bs =>
    rw [hd] at h
    simp only [List.isPrefixOf, Bool.and_eq_true, beq_iff_eq] at h
    simp only [List.isPrefixOf, List.isPrefixOf_nil_left, Bool.and_true]
    rw [← h.1]
    decide

/-- Victims are drawn from the category list. -/
theorem pyNegSlice_subset {l : List α} {k : Nat} {t : α}
    (h : t ∈ pyNegSlice l k) : t ∈ l := by
  unfold pyNegSlice at h
  split at h
  · cases h
  · exact List.mem_of_mem_take h

/-- Core facts about one category's victim selection (keep count at least 1,
distinct tags, distinct update times): the victims are exactly the sorted
prefix cut `keep_n` before the end, there are never more than
`len - keep_n` of them, and every victim is strictly older than every kept
tag. -/
theorem victims_core (time : String → Nat) (F : List String) (k : Nat)
    (hk : 1 ≤ k) (hnd : F.Nodup)
    (hinj : ∀ a ∈ F, ∀ b ∈ F, time a = time b → a = b) :
    pyNegSlice (sortAscByTime time F) k
      = (sortAscByTime time F).take (F.length - k) ∧
    (pyNegSlice (sortAscByTime time F) k).length ≤ F.length - k ∧
    ∀ v ∈ pyNegSlice (sortAscByTime time F) k,
      ∀ s ∈ (sortAscByTime time F).drop (F.length - k), time v < time s := by
  have hperm : List.Perm (sortAscByTime time F) F :=
    List.perm_insertionSort _ F
  have hlen : (sortAscByTime time F).length = F.length := hperm.length_eq
  have h1 : pyNegSlice (sortAscByTime time F) k
      = (sortAscByTime time F).take (F.length - k) := by
    unfold pyNegSlice
    rw [if_neg (by omega), hlen]
  have hsorted : List.Sorted (fun a b => time a ≤ time b)
      (sortAscByTime time F) := List.sorted_insertionSort _ F
  have hndS : (sortAscByTime time F).Nodup := hperm.nodup_iff.2 hnd
  refine ⟨h1, ?_, ?_⟩
  · rw [h1]
    simpa [List.length_take, hlen] using
      Nat.min_le_left (F.length - k) (F.length)
  · intro v hv s hs
    rw [h1] at hv
    have hle : time v ≤ time s :=
      hsorted.rel_of_mem_take_of_mem_drop hv hs
    by_cases heq : time v = time s
    · exfalso
      have hvF : v ∈ F := hperm.mem_iff.1 (List.mem_of_mem_take hv)
      have hsF : s ∈ F := hperm.mem_iff.1 (List.mem_of_mem_drop hs)
      have hvs : v = s := hinj v hvF s hsF heq
      rw [hvs] at hv
      have hnd2 : ((sortAscByTime time F).take (F.length - k) ++
          (sortAscByTime time F).drop (F.length - k)).Nodup := by
        rw [List.take_append_drop]
        exact hndS
      exact (List.nodup_append.1 hnd2).2.2 hv hs
    · exact Nat.lt_of_le_of_ne hle heq

/-- The reapable key set is the dict-key view of the raw victim list. -/
theorem reapableKeys_eq (info : String → TagInfo) (s : CatTags)
    (tags : List String) (ke kd kw : Nat) :
    reapableKeys info s tags ke kd kw
      = pyDictKeys ((selectVictims info s tags ke kd kw).snd.fst) := by
  simp only [reapableKeys, selectVictims, List.map_map]
  rw [show (Prod.fst ∘ fun t => (t, (info t).hash)) = fun t : String => t
    from rfl]
  exact List.map_id _

/-- On a clean (first-use) shared state, `_categorize_tags` produces exactly
the three prefix-filtered tag lists, each sorted ascending by update time. -/
theorem categorizeTags_empty (time : String → Nat) (tags : List String) :
    categorizeTags time {} tags =
      CatTags.mk (sortAscByTime time (tags.filter isWeeklyTagB))
        (sortAscByTime time (tags.filter isDailyTagB))
        (sortAscByTime time (tags.filter isExpTagB)) := by
  simp [categorizeTags, appendReapTags_eq]

/-- C5 (corrected).  On a clean shared state, with every keep count at least
1 (for `keep_n = 0` the slice `[:-0]` selects nothing, see the
counterexample), distinct tag names and distinct update times:
`_select_victims` orders each of the weekly/daily/experimental categories
ascending by last-updated time and selects exactly the sorted prefix that
precedes the `keep_n` most recently updated tags -- never more than
`len - keep_n` tags, every victim strictly older than every kept tag --
never selects a release tag (their names start with `r` and are never
categorized), and records each reapable tag's content hash from the last
scan's results map. -/
theorem c5_victim_selection (info : String → TagInfo) (tags : List String)
    (ke kd kw : Nat) (hke : 1 ≤ ke) (hkd : 1 ≤ kd) (hkw : 1 ≤ kw)
    (hnd : tags.Nodup)
    (hinj : ∀ a ∈ tags, ∀ b ∈ tags,
      (info a).last_updated = (info b).last_updated → a = b) :
    (selectVictims info {} tags ke kd kw).fst =
      CatTags.mk
        (sortAscByTime (fun t => (info t).last_updated)
          (tags.filter isWeeklyTagB))
        (sortAscByTime (fun t => (info t).last_updated)
          (tags.filter isDailyTagB))
        (sortAscByTime (fun t => (info t).last_updated)
          (tags.filter isExpTagB)) ∧
    (pyNegSlice (sortAscByTime (fun t => (info t).last_updated)
        (tags.filter isWeeklyTagB)) kw
      = (sortAscByTime (fun t => (info t).last_updated)
          (tags.filter isWeeklyTagB)).take ((tags.filter isWeeklyTagB).length - kw) ∧
     (pyNegSlice (sortAscByTime (fun t => (info t).last_updated)
        (tags.filter isWeeklyTagB)) kw).length
       ≤ (tags.filter isWeeklyTagB).length - kw ∧
     ∀ v ∈ pyNegSlice (sortAscByTime (fun t => (info t).last_updated)
        (tags.filter isWeeklyTagB)) kw,
       ∀ s ∈ (sortAscByTime (fun t => (info t).last_updated)
          (tags.filter isWeeklyTagB)).drop ((tags.filter isWeeklyTagB).length - kw),
         (info v).last_updated < (info s).last_updated) ∧
    (pyNegSlice (sortAscByTime (fun t => (info t).last_updated)
        (tags.filter isDailyTagB)) kd
      = (sortAscByTime (fun t => (info t).last_updated)
          (tags.filter isDailyTagB)).take ((tags.filter isDailyTagB).length - kd) ∧
     (pyNegSlice (sortAscByTime (fun t => (info t).last_updated)
        (tags.filter isDailyTagB)) kd).length
       ≤ (tags.filter isDailyTagB).length - kd ∧
     ∀ v ∈ pyNegSlice (sortAscByTime (fun t => (info t).last_updated)
        (tags.filter isDailyTagB)) kd,
       ∀ s ∈ (sortAscByTime (fun t => (info t).last_updated)
          (tags.filter isDailyTagB)).drop ((tags.filter isDailyTagB).length - kd),
         (info v).last_updated < (info s).last_updated) ∧
    (pyNegSlice (sortAscByTime (fun t => (info t).last_updated)
        (tags.filter isExpTagB)) ke
      = (sortAscByTime (fun t => (info t).last_updated)
          (tags.filter isExpTagB)).take ((tags.filter isExpTagB).length - ke) ∧
     (pyNegSlice (sortAscByTime (fun t => (info t).last_updated)
        (tags.filter isExpTagB)) ke).length
       ≤ (tags.filter isExpTagB).length - ke ∧
     ∀ v ∈ pyNegSlice (sortAscByTime (fun t => (info t).last_updated)
        (tags.filter isExpTagB)) ke,
       ∀ s ∈ (sortAscByTime (fun t => (info t).last_updated)
          (tags.filter isExpTagB)).drop ((tags.filter isExpTagB).length - ke),
         (info v).last_updated < (info s).last_updated) ∧
    (∀ t ∈ reapableKeys info {} tags ke kd kw,
      pyStartsWith t "r" = false) ∧
    (selectVictims info {} tags ke kd kw).snd.snd =
      (pyDictKeys (selectVictims info {} tags ke kd kw).snd.fst).map
        (fun t => (t, (info t).hash)) := by
  have hW := victims_core (fun t => (info t).last_updated)
    (tags.filter isWeeklyTagB) kw hkw (hnd.filter _)
    (fun a ha b hb => hinj a (List.mem_of_mem_filter ha)
      b (List.mem_of_mem_filter hb))
  have hD := victims_core (fun t => (info t).last_updated)
    (tags.filter isDailyTagB) kd hkd (hnd.filter _)
    (fun a ha b hb => hinj a (List.mem_of_mem_filter ha)
      b (List.mem_of_mem_filter hb))
  have hE := victims_core (fun t => (info t).last_updated)
    (tags.filter isExpTagB) ke hke (hnd.filter _)
    (fun a ha b hb => hinj a (List.mem_of_mem_filter ha)
      b (List.mem_of_mem_filter hb))
  refine ⟨?_, hW, hD, hE, ?_, rfl⟩
  · show categorizeTags _ {} tags = _
    exact categorizeTags_empty _ tags
  · intro t ht
    rw [reapableKeys_eq, pyDictKeys_mem] at ht
    have ht2 : t ∈ pyNegSlice (sortAscByTime (fun t => (info t).last_updated)
        (tags.filter isExpTagB)) ke ++
        pyNegSlice (sortAscByTime (fun t => (info t).last_updated)
          (tags.filter isDailyTagB)) kd ++
        pyNegSlice (sortAscByTime (fun t => (info t).last_updated)
          (tags.filter isWeeklyTagB)) kw := by
      have : (selectVictims info {} tags ke kd kw).snd.fst =
          pyNegSlice (sortAscByTime (fun t => (info t).last_updated)
            (tags.filter isExpTagB)) ke ++
          pyNegSlice (sortAscByTime (fun t => (info t).last_updated)
            (tags.filter isDailyTagB)) kd ++
          pyNegSlice (sortAscByTime (fun t => (info t).last_updated)
            (tags.filter isWeeklyTagB)) kw := by
        simp [selectVictims, categorizeTags_empty]
      rw [this] at ht
      exact ht
    rcases List.mem_append.1 ht2 with h1 | h1
    · rcases List.mem_append.1 h1 with h2 | h2
      · have hmem : t ∈ tags.filter isExpTagB :=
          (List.perm_insertionSort _ _).mem_iff.1 (pyNegSlice_subset h2)
        have hpred := (List.mem_filter.1 hmem).2
        simp only [isExpTagB, Bool.and_eq_true] at hpred
        exact pyStartsWith_exp_not_r t hpred.2
      · have hmem : t ∈ tags.filter isDailyTagB :=
          (List.perm_insertionSort _ _).mem_iff.1 (pyNegSlice_subset h2)
        have hpred := (List.mem_filter.1 hmem).2
        simp only [isDailyTagB, Bool.and_eq_true] at hpred
        exact pyStartsWith_d_not_r t hpred.2
    · have hmem : t ∈ tags.filter isWeeklyTagB :=
        (List.perm_insertionSort _ _).mem_iff.1 (pyNegSlice_subset h1)
      have hpred := (List.mem_filter.1 hmem).2
      simp only [isWeeklyTagB] at hpred
      exact pyStartsWith_w_not_r t hpred

/-- Witness for C5: four weekly tags updated oldest to newest with
`keep_weeklies = 2` -- the victims are the sorted prefix before the two most
recent tags. -/
theorem c5_victim_selection_witness :
    pyNegSlice (sortAscByTime
        (fun t => ((fun t => TagInfo.mk
          (if t = "w2" then 2 else if t = "w3" then 3 else
            if t = "w4" then 4 else 1) "h") t).last_updated)
        (["w1", "w2", "w3", "w4"].filter isWeeklyTagB)) 2
      = (sortAscByTime
          (fun t => ((fun t => TagInfo.mk
            (if t = "w2" then 2 else if t = "w3" then 3 else
              if t = "w4" then 4 else 1) "h") t).last_updated)
          (["w1", "w2", "w3", "w4"].filter isWeeklyTagB)).take
        ((["w1", "w2", "w3", "w4"].filter isWeeklyTagB).length - 2) :=
  (c5_victim_selection
    (fun t => TagInfo.mk
      (if t = "w2" then 2 else if t = "w3" then 3 else
        if t = "w4" then 4 else 1) "h")
    ["w1", "w2", "w3", "w4"] 10 15 2
    (by decide) (by decide) (by decide) (by decide) (by decide)).2.1.1

/-- Duplicating each element is a permutation of appending the list to
itself. -/
theorem dupEach_perm (l : List α) : List.Perm (dupEach l) (l ++ l) := by
  induction l with
  | nil => simp [dupEach]
  | cons a t ih =>
    simp only [dupEach, List.cons_append]
    refine List.Perm.cons a ?_
    exact (List.Perm.cons a ih).trans List.perm_middle.symm

/-- Length of the duplicated list. -/
theorem dupEach_length (l : List α) : (dupEach l).length = 2 * l.length := by
  induction l with
  | nil => rfl
  | cons a t ih => simp [dupEach, ih]; omega

/-- Membership in the duplicated list. -/
theorem dupEach_mem {x : α} : ∀ l : List α, x ∈ dupEach l ↔ x ∈ l := by
  intro l
  induction l with
  | nil => simp [dupEach]
  | cons a t ih => simp [dupEach, ih]

/-- The element at an even position of the duplicated list. -/
theorem dupEach_getD (d : α) : ∀ (l : List α) (i : Nat), i < l.length →
    (dupEach l).getD (2 * i) d = l.getD i d := by
  intro l
  induction l with
  | nil => intro i h; cases h
  | cons a t ih =>
    intro i h
    cases i with
    | zero => simp [dupEach]
    | succ j =>
      rw [show 2 * (j + 1) = 2 * j + 1 + 1 from by omega]
      simp only [dupEach, List.getD_cons_succ]
      exact ih j (Nat.lt_of_succ_lt_succ h)

/-- Duplication preserves pairwise relations that are reflexive. -/
theorem dupEach_pairwise {r : α → α → Prop} (hrefl : ∀ a, r a a) :
    ∀ {l : List α}, l.Pairwise r → (dupEach l).Pairwise r := by
  intro l
  induction l with
  | nil => intro _; exact List.Pairwise.nil
  | cons a t ih =>
    intro h
    obtain ⟨h1, h2⟩ := List.pairwise_cons.1 h
    refine List.pairwise_cons.2 ⟨?_, List.pairwise_cons.2 ⟨?_, ih h2⟩⟩
    · intro b hb
      rcases List.mem_cons.1 hb with rfl | hb2
      · exact hrefl _
      · exact h1 b ((dupEach_mem t).1 hb2)
    · intro b hb
      exact h1 b ((dupEach_mem t).1 hb)

/-- With distinct update times, a weakly sorted tag list is sorted for the
antisymmetric refinement `time a < time b ∨ a = b`. -/
theorem sorted_strict_of_le (time : String → Nat) (l : List String)
    (hs : List.Sorted (fun a b => time a ≤ time b) l)
    (hinj : ∀ a ∈ l, ∀ b ∈ l, time a = time b → a = b) :
    List.Sorted (fun a b => time a < time b ∨ a = b) l := by
  unfold List.Sorted at *
  refine List.Pairwise.imp_of_mem ?_ hs
  intro a b ha hb hab
  rcases Nat.lt_or_ge (time a) (time b) with h | h
  · exact Or.inl h
  · exact Or.inr (hinj a ha b hb (Nat.le_antisymm hab h))

/-- Re-sorting a sorted category list with the same scan data appended again
duplicates each element in place. -/
theorem second_sort_eq_dupEach (time : String → Nat) (F : List String)
    (hnd : F.Nodup)
    (hinj : ∀ a ∈ F, ∀ b ∈ F, time a = time b → a = b) :
    sortAscByTime time (sortAscByTime time F ++ F)
      = dupEach (sortAscByTime time F) := by
  haveI : IsAntisymm String (fun a b => time a < time b ∨ a = b) := by
    refine ⟨?_⟩
    intro a b h1 h2
    rcases h1 with h1 | h1
    · rcases h2 with h2 | h2
      · exact absurd h2 (Nat.lt_asymm h1)
      · exact h2.symm
    · exact h1
  have hpermS : List.Perm (sortAscByTime time F) F :=
    List.perm_insertionSort _ F
  have hinjS : ∀ a ∈ sortAscByTime time F, ∀ b ∈ sortAscByTime time F,
      time a = time b → a = b := fun a ha b hb =>
    hinj a (hpermS.mem_iff.1 ha) b (hpermS.mem_iff.1 hb)
  apply List.eq_of_perm_of_sorted
    (r := fun a b => time a < time b ∨ a = b)
  · exact ((List.perm_insertionSort _ _).trans
      ((hpermS.append_right F).trans
        ((hpermS.append hpermS).symm.trans
          (dupEach_perm (sortAscByTime time F)).symm)))
  · apply sorted_strict_of_le
    · exact List.sorted_insertionSort _ _
    · intro a ha b hb
      have hperm2 : List.Perm (sortAscByTime time (sortAscByTime time F ++ F))
          (sortAscByTime time F ++ F) := List.perm_insertionSort _ _
      have ha2 := hperm2.mem_iff.1 ha
      have hb2 := hperm2.mem_iff.1 hb
      have haF : a ∈ F := by
        rcases List.mem_append.1 ha2 with h | h
        · exact hpermS.mem_iff.1 h
        · exact h
      have hbF : b ∈ F := by
        rcases List.mem_append.1 hb2 with h | h
        · exact hpermS.mem_iff.1 h
        · exact h
      exact hinj a haF b hbF
  · exact dupEach_pairwise (r := fun a b => time a < time b ∨ a = b)
      (fun a => Or.inr rfl)
      (sorted_strict_of_le time _ (List.sorted_insertionSort _ _) hinjS)

/-- Core of the second-call divergence: for a category holding `n` distinct
tags with distinct times and keep count `k` with `1 <= k < 2n`, the tag at
sorted position `n - k` (the OLDEST KEPT tag of the first call) is selected
by the second call but not by the first. -/
theorem reap_second_differs_core (time : String → Nat) (F : List String)
    (k : Nat) (hk : 1 ≤ k) (h2n : k < 2 * F.length)
    (hnd : F.Nodup)
    (hinj : ∀ a ∈ F, ∀ b ∈ F, time a = time b → a = b) :
    (sortAscByTime time F).getD (F.length - k) ""
        ∈ pyNegSlice (sortAscByTime time (sortAscByTime time F ++ F)) k ∧
    (sortAscByTime time F).getD (F.length - k) ""
        ∉ pyNegSlice (sortAscByTime time F) k ∧
    (sortAscByTime time F).getD (F.length - k) ""
        ∈ (sortAscByTime time F).drop (F.length - k) ∧
    (sortAscByTime time F).getD (F.length - k) "" ∈ F := by
  have hperm : List.Perm (sortAscByTime time F) F :=
    List.perm_insertionSort _ F
  have hlenS : (sortAscByTime time F).length = F.length := hperm.length_eq
  have hn1 : 1 ≤ F.length := by omega
  have hj : F.length - k < F.length := by omega
  have hjS : F.length - k < (sortAscByTime time F).length := by omega
  have hndS : (sortAscByTime time F).Nodup := hperm.nodup_iff.2 hnd
  refine ⟨?_, ?_, ?_, ?_⟩
  · rw [second_sort_eq_dupEach time F hnd hinj]
    have hlen2 : (dupEach (sortAscByTime time F)).length = 2 * F.length := by
      rw [dupEach_length, hlenS]
    unfold pyNegSlice
    rw [if_neg (by omega), hlen2]
    rw [show (sortAscByTime time F).getD (F.length - k) ""
        = (dupEach (sortAscByTime time F)).getD (2 * (F.length - k)) "" from
      (dupEach_getD "" (sortAscByTime time F) (F.length - k) hjS).symm]
    exact getD_mem_take _ _ _ _ (by omega) (by omega)
  · intro hmem
    unfold pyNegSlice at hmem
    rw [if_neg (by omega), hlenS] at hmem
    obtain ⟨i, hi1, hi2, hi3⟩ := mem_take_getD "" _ _ _ hmem
    have := nodup_getD_inj _ hndS i (F.length - k) "" hi2 hjS hi3
    omega
  · exact getD_mem_drop _ _ _ hjS
  · exact hperm.mem_iff.1 (getD_mem_self _ _ _ hjS)

/-- Unfolding of the shared state produced by `_select_victims`. -/
theorem selectVictims_fst (info : String → TagInfo) (s : CatTags)
    (tags : List String) (ke kd kw : Nat) :
    (selectVictims info s tags ke kd kw).fst =
      CatTags.mk
        (sortAscByTime (fun t => (info t).last_updated)
          (s.weekly ++ tags.filter isWeeklyTagB))
        (sortAscByTime (fun t => (info t).last_updated)
          (s.daily ++ tags.filter isDailyTagB))
        (sortAscByTime (fun t => (info t).last_updated)
          (s.experimental ++ tags.filter isExpTagB)) := by
  simp [selectVictims, categorizeTags, appendReapTags_eq]

/-- Unfolding of the raw victim list of `_select_victims`. -/
theorem selectVictims_reaptags (info : String → TagInfo) (s : CatTags)
    (tags : List String) (ke kd kw : Nat) :
    (selectVictims info s tags ke kd kw).snd.fst =
      pyNegSlice (sortAscByTime (fun t => (info t).last_updated)
        (s.experimental ++ tags.filter isExpTagB)) ke ++
      pyNegSlice (sortAscByTime (fun t => (info t).last_updated)
        (s.daily ++ tags.filter isDailyTagB)) kd ++
      pyNegSlice (sortAscByTime (fun t => (info t).last_updated)
        (s.weekly ++ tags.filter isWeeklyTagB)) kw := by
  simp [selectVictims, categorizeTags, appendReapTags_eq]

/-- Second-call divergence, weekly category. -/
theorem c10_differs_weekly (info : String → TagInfo) (tags : List String)
    (ke kd kw : Nat) (hkw : 1 ≤ kw)
    (h2n : kw < 2 * (tags.filter isWeeklyTagB).length)
    (hnd : tags.Nodup)
    (hinj : ∀ a ∈ tags, ∀ b ∈ tags,
      (info a).last_updated = (info b).last_updated → a = b) :
    ∃ t, t ∈ reapableKeys info
        ((selectVictims info {} tags ke kd kw).fst) tags ke kd kw ∧
      t ∉ reapableKeys info {} tags ke kd kw ∧
      t ∈ (sortAscByTime (fun t => (info t).last_updated)
          (tags.filter isWeeklyTagB)).drop
        ((tags.filter isWeeklyTagB).length - kw) := by
  have hndF : (tags.filter isWeeklyTagB).Nodup := hnd.filter _
  have hinjF : ∀ a ∈ tags.filter isWeeklyTagB,
      ∀ b ∈ tags.filter isWeeklyTagB,
      (info a).last_updated = (info b).last_updated → a = b :=
    fun a ha b hb => hinj a (List.mem_of_mem_filter ha)
      b (List.mem_of_mem_filter hb)
  obtain ⟨hin2, hnotin1, hdropmem, hmemF⟩ :=
    reap_second_differs_core (fun t => (info t).last_updated)
      (tags.filter isWeeklyTagB) kw hkw h2n hndF hinjF
  have hw : pyStartsWith ((sortAscByTime (fun t => (info t).last_updated)
      (tags.filter isWeeklyTagB)).getD
        ((tags.filter isWeeklyTagB).length - kw) "") "w" = true := by
    have := (List.mem_filter.1 hmemF).2
    simpa [isWeeklyTagB] using this
  refine ⟨_, ?_, ?_, hdropmem⟩
  · rw [reapableKeys_eq, pyDictKeys_mem, selectVictims_reaptags,
      selectVictims_fst]
    apply List.mem_append_right
    simpa using hin2
  · intro hmem
    rw [reapableKeys_eq, pyDictKeys_mem, selectVictims_reaptags] at hmem
    simp only [CatTags.experimental, CatTags.daily, CatTags.weekly,
      List.nil_append] at hmem
    rcases List.mem_append.1 hmem with h1 | h1
    · rcases List.mem_append.1 h1 with h2 | h2
      · have hmemE : _ ∈ tags.filter isExpTagB :=
          (List.perm_insertionSort _ _).mem_iff.1 (pyNegSlice_subset h2)
        have hE := (List.mem_filter.1 hmemE).2
        simp only [isExpTagB] at hE
        rw [hw] at hE
        simp at hE
      · have hmemD : _ ∈ tags.filter isDailyTagB :=
          (List.perm_insertionSort _ _).mem_iff.1 (pyNegSlice_subset h2)
        have hD := (List.mem_filter.1 hmemD).2
        simp only [isDailyTagB] at hD
        rw [hw] at hD
        simp at hD
    · exact hnotin1 h1

/-- Second-call divergence, daily category. -/
theorem c10_differs_daily (info : String → TagInfo) (tags : List String)
    (ke kd kw : Nat) (hkd : 1 ≤ kd)
    (h2n : kd < 2 * (tags.filter isDailyTagB).length)
    (hnd : tags.Nodup)
    (hinj : ∀ a ∈ tags, ∀ b ∈ tags,
      (info a).last_updated = (info b).last_updated → a = b) :
    ∃ t, t ∈ reapableKeys info
        ((selectVictims info {} tags ke kd kw).fst) tags ke kd kw ∧
      t ∉ reapableKeys info {} tags ke kd kw ∧
      t ∈ (sortAscByTime (fun t => (info t).last_updated)
          (tags.filter isDailyTagB)).drop
        ((tags.filter isDailyTagB).length - kd) := by
  have hndF : (tags.filter isDailyTagB).Nodup := hnd.filter _
  have hinjF : ∀ a ∈ tags.filter isDailyTagB,
      ∀ b ∈ tags.filter isDailyTagB,
      (info a).last_updated = (info b).last_updated → a = b :=
    fun a ha b hb => hinj a (List.mem_of_mem_filter ha)
      b (List.mem_of_mem_filter hb)
  obtain ⟨hin2, hnotin1, hdropmem, hmemF⟩ :=
    reap_second_differs_core (fun t => (info t).last_updated)
      (tags.filter isDailyTagB) kd hkd h2n hndF hinjF
  have hD0 := (List.mem_filter.1 hmemF).2
  simp only [isDailyTagB, Bool.and_eq_true, Bool.not_eq_true'] at hD0
  refine ⟨_, ?_, ?_, hdropmem⟩
  · rw [reapableKeys_eq, pyDictKeys_mem, selectVictims_reaptags,
      selectVictims_fst]
    apply List.mem_append_left
    apply List.mem_append_right
    simpa using hin2
  · intro hmem
    rw [reapableKeys_eq, pyDictKeys_mem, selectVictims_reaptags] at hmem
    simp only [CatTags.experimental, CatTags.daily, CatTags.weekly,
      List.nil_append] at hmem
    rcases List.mem_append.1 hmem with h1 | h1
    · rcases List.mem_append.1 h1 with h2 | h2
      · have hmemE : _ ∈ tags.filter isExpTagB :=
          (List.perm_insertionSort _ _).mem_iff.1 (pyNegSlice_subset h2)
        have hE := (List.mem_filter.1 hmemE).2
        simp only [isExpTagB] at hE
        rw [hD0.2] at hE
        simp at hE
      · exact hnotin1 h2
    · have hmemW : _ ∈ tags.filter isWeeklyTagB :=
        (List.perm_insertionSort _ _).mem_iff.1 (pyNegSlice_subset h1)
      have hW := (List.mem_filter.1 hmemW).2
      simp only [isWeeklyTagB] at hW
      rw [hD0.1] at hW
      exact Bool.noConfusion hW

/-- Second-call divergence, experimental category. -/
theorem c10_differs_exp (info : String → TagInfo) (tags : List String)
    (ke kd kw : Nat) (hke : 1 ≤ ke)
    (h2n : ke < 2 * (tags.filter isExpTagB).length)
    (hnd : tags.Nodup)
    (hinj : ∀ a ∈ tags, ∀ b ∈ tags,
      (info a).last_updated = (info b).last_updated → a = b) :
    ∃ t, t ∈ reapableKeys info
        ((selectVictims info {} tags ke kd kw).fst) tags ke kd kw ∧
      t ∉ reapableKeys info {} tags ke kd kw ∧
      t ∈ (sortAscByTime (fun t => (info t).last_updated)
          (tags.filter isExpTagB)).drop
        ((tags.filter isExpTagB).length - ke) := by
  have hndF : (tags.filter isExpTagB).Nodup := hnd.filter _
  have hinjF : ∀ a ∈ tags.filter isExpTagB,
      ∀ b ∈ tags.filter isExpTagB,
      (info a).last_updated = (info b).last_updated → a = b :=
    fun a ha b hb => hinj a (List.mem_of_mem_filter ha)
      b (List.mem_of_mem_filter hb)
  obtain ⟨hin2, hnotin1, hdropmem, hmemF⟩ :=
    reap_second_differs_core (fun t => (info t).last_updated)
      (tags.filter isExpTagB) ke hke h2n hndF hinjF
  have hE0 := (List.mem_filter.1 hmemF).2
  simp only [isExpTagB, Bool.and_eq_true, Bool.not_eq_true'] at hE0
  refine ⟨_, ?_, ?_, hdropmem⟩
  · rw [reapableKeys_eq, pyDictKeys_mem, selectVictims_reaptags,
      selectVictims_fst]
    apply List.mem_append_left
    apply List.mem_append_left
    simpa using hin2
  · intro hmem
    rw [reapableKeys_eq, pyDictKeys_mem, selectVictims_reaptags] at hmem
    simp only [CatTags.experimental, CatTags.daily, CatTags.weekly,
      List.nil_append] at hmem
    rcases List.mem_append.1 hmem with h1 | h1
    · rcases List.mem_append.1 h1 with h2 | h2
      · exact hnotin1 h2
      · have hmemD : _ ∈ tags.filter isDailyTagB :=
          (List.perm_insertionSort _ _).mem_iff.1 (pyNegSlice_subset h2)
        have hD := (List.mem_filter.1 hmemD).2
        simp only [isDailyTagB, Bool.and_eq_true, Bool.not_eq_true'] at hD
        rw [hE0.1.2] at hD
        exact Bool.noConfusion hD.2
    · have hmemW : _ ∈ tags.filter isWeeklyTagB :=
        (List.perm_insertionSort _ _).mem_iff.1 (pyNegSlice_subset h1)
      have hW := (List.mem_filter.1 hmemW).2
      simp only [isWeeklyTagB] at hW
      rw [hE0.1.1] at hW
      exact Bool.noConfusion hW

/-- Sorting a category list does not change tag multiplicities. -/
theorem count_sortAscByTime (time : String → Nat) (l : List String)
    (t : String) : List.count t (sortAscByTime time l) = List.count t l :=
  (List.perm_insertionSort _ l).count_eq t

/-- C10 (corrected).  `Reaper._categorized_tags` is a class-level dict that
is never cleared: a second `reap()`/`report_reapable()` with unchanged scan
data appends every tag again, so the second victim selection runs over
category lists holding every tag twice.  The second reapable set does not
ALWAYS differ from the first (see the counterexample with one weekly tag and
default keep counts); it differs -- and then contains a tag inside the
configured keep window -- exactly under the stated per-category condition
`1 <= keep_n < 2 * n`. -/
theorem c10_shared_state_doubling (info : String → TagInfo)
    (tags : List String) (ke kd kw : Nat) (hnd : tags.Nodup)
    (hinj : ∀ a ∈ tags, ∀ b ∈ tags,
      (info a).last_updated = (info b).last_updated → a = b) :
    (∀ t : String,
      List.count t ((selectVictims info
          ((selectVictims info {} tags ke kd kw).fst) tags ke kd kw).fst.weekly)
        = 2 * List.count t (tags.filter isWeeklyTagB) ∧
      List.count t ((selectVictims info
          ((selectVictims info {} tags ke kd kw).fst) tags ke kd kw).fst.daily)
        = 2 * List.count t (tags.filter isDailyTagB) ∧
      List.count t ((selectVictims info
          ((selectVictims info {} tags ke kd kw).fst) tags ke kd kw).fst.experimental)
        = 2 * List.count t (tags.filter isExpTagB)) ∧
    (1 ≤ kw → kw < 2 * (tags.filter isWeeklyTagB).length →
      ∃ t, t ∈ reapableKeys info
          ((selectVictims info {} tags ke kd kw).fst) tags ke kd kw ∧
        t ∉ reapableKeys info {} tags ke kd kw ∧
        t ∈ (sortAscByTime (fun t => (info t).last_updated)
            (tags.filter isWeeklyTagB)).drop
          ((tags.filter isWeeklyTagB).length - kw)) ∧
    (1 ≤ kd → kd < 2 * (tags.filter isDailyTagB).length →
      ∃ t, t ∈ reapableKeys info
          ((selectVictims info {} tags ke kd kw).fst) tags ke kd kw ∧
        t ∉ reapableKeys info {} tags ke kd kw ∧
        t ∈ (sortAscByTime (fun t => (info t).last_updated)
            (tags.filter isDailyTagB)).drop
          ((tags.filter isDailyTagB).length - kd)) ∧
    (1 ≤ ke → ke < 2 * (tags.filter isExpTagB).length →
      ∃ t, t ∈ reapableKeys info
          ((selectVictims info {} tags ke kd kw).fst) tags ke kd kw ∧
        t ∉ reapableKeys info {} tags ke kd kw ∧
        t ∈ (sortAscByTime (fun t => (info t).last_updated)
            (tags.filter isExpTagB)).drop
          ((tags.filter isExpTagB).length - ke)) := by
  refine ⟨?_,
    fun h1 h2 => c10_differs_weekly info tags ke kd kw h1 h2 hnd hinj,
    fun h1 h2 => c10_differs_daily info tags ke kd kw h1 h2 hnd hinj,
    fun h1 h2 => c10_differs_exp info tags ke kd kw h1 h2 hnd hinj⟩
  intro t
  rw [selectVictims_fst info ((selectVictims info {} tags ke kd kw).fst)
      tags ke kd kw,
    selectVictims_fst info {} tags ke kd kw]
  simp only [CatTags.weekly, CatTags.daily, CatTags.experimental,
    List.nil_append]
  refine ⟨?_, ?_, ?_⟩ <;>
  · rw [count_sortAscByTime, List.count_append, count_sortAscByTime]
    omega

/-- Witness for C10: four weekly tags with `keep_weeklies = 2` -- after the
second call the weekly list holds `w1` twice, and the second reapable set
gains a tag (in fact `w3`) that the first call had kept. -/
theorem c10_shared_state_doubling_witness :
    List.count "w1" ((selectVictims
        (fun t => TagInfo.mk (if t = "w2" then 2 else if t = "w3" then 3 else
          if t = "w4" then 4 else 1) "h")
        ((selectVictims
          (fun t => TagInfo.mk (if t = "w2" then 2 else if t = "w3" then 3 else
            if t = "w4" then 4 else 1) "h")
          {} ["w1", "w2", "w3", "w4"] 10 15 2).fst)
        ["w1", "w2", "w3", "w4"] 10 15 2).fst.weekly)
      = 2 * List.count "w1" (["w1", "w2", "w3", "w4"].filter isWeeklyTagB) ∧
    ∃ t, t ∈ reapableKeys
        (fun t => TagInfo.mk (if t = "w2" then 2 else if t = "w3" then 3 else
          if t = "w4" then 4 else 1) "h")
        ((selectVictims
          (fun t => TagInfo.mk (if t = "w2" then 2 else if t = "w3" then 3 else
            if t = "w4" then 4 else 1) "h")
          {} ["w1", "w2", "w3", "w4"] 10 15 2).fst)
        ["w1", "w2", "w3", "w4"] 10 15 2 ∧
      t ∉ reapableKeys
        (fun t => TagInfo.mk (if t = "w2" then 2 else if t = "w3" then 3 else
          if t = "w4" then 4 else 1) "h")
        {} ["w1", "w2", "w3", "w4"] 10 15 2 ∧
      t ∈ (sortAscByTime
          (fun t => ((fun t => TagInfo.mk (if t = "w2" then 2 else
            if t = "w3" then 3 else if t = "w4" then 4 else 1) "h")
              t).last_updated)
          (["w1", "w2", "w3", "w4"].filter isWeeklyTagB)).drop
        ((["w1", "w2", "w3", "w4"].filter isWeeklyTagB).length - 2) :=
  ⟨((c10_shared_state_doubling
      (fun t => TagInfo.mk (if t = "w2" then 2 else if t = "w3" then 3 else
        if t = "w4" then 4 else 1) "h")
      ["w1", "w2", "w3", "w4"] 10 15 2 (by decide) (by decide)).1 "w1").1,
   (c10_shared_state_doubling
      (fun t => TagInfo.mk (if t = "w2" then 2 else if t = "w3" then 3 else
        if t = "w4" then 4 else 1) "h")
      ["w1", "w2", "w3", "w4"] 10 15 2 (by decide) (by decide)).2.1
     (by decide) (by decide)⟩
